import Mathlib

/-!
Verification development for the numdiff core engine (`src/ndiff.c`).

The C code is shallowly embedded:
* character buffers become `List Char`; the terminating NUL of a C string is
  not stored — reading at or past the end of the list yields the NUL
  character (`chAt`), exactly as reading `buf[len]` of a C string does;
* byte cursors and pointers become `Nat` indices;
* C `double` values become `ℚ` (the concrete computations settled here are
  exact in binary64, so no rounding behaviour is lost);
* the two input `FILE` streams become lists of newline-terminated lines
  (`List (List Char)`) together with a sticky end-of-file flag, mirroring
  `feof` semantics;
* loops become fuel-indexed recursive functions returning `Option`
  (`none` = fuel exhausted, which the theorems rule out).

Collaborator code that is part of the repository but not under `src/`
(`register.h`, `constraint.h`, `context.h`, `utils.h`, `slice`) is modelled
from the spec; each such definition carries a doc comment saying so.
`strtod` is modelled from the C standard.
-/

/-- The NUL character terminating every C string. -/
def nulChar : Char := Char.ofNat 0

/-- Read byte `i` of a buffer; at or past the end this is the terminating
NUL, as for a C string. -/
def chAt (b : List Char) (i : Nat) : Char := b.getD i nulChar

/-- `isdigit` from ctype.h (ASCII). -/
def isDigitC (c : Char) : Bool := '0' ≤ c && c ≤ '9'

/-- `isblank` from ctype.h (ASCII): space or horizontal tab. -/
def isBlankC (c : Char) : Bool := c = ' ' || c = '\t'

/-- `ispunct` from ctype.h (ASCII): printable, not alphanumeric, not space. -/
def isPunctC (c : Char) : Bool :=
  (33 ≤ c.toNat && c.toNat ≤ 47) || (58 ≤ c.toNat && c.toNat ≤ 64) ||
  (91 ≤ c.toNat && c.toNat ≤ 96) || (123 ≤ c.toNat && c.toNat ≤ 126)

/-- `is_separator` (ndiff.c:66): NUL, blank, or punctuation not in the
user-configured keep-as-identifier set `chr` (the global `option.chr`,
passed here as a parameter). -/
def is_separator (chr : List Char) (c : Char) : Bool :=
  c = nulChar || isBlankC c || (isPunctC c && !(chr.contains c))

theorem chAt_eq_default {b : List Char} {i : Nat} (h : b.length ≤ i) :
    chAt b i = nulChar := by
  simp [chAt, List.getD, List.getElem?_eq_none h]

theorem lt_length_of_chAt_ne {b : List Char} {i : Nat}
    (h : chAt b i ≠ nulChar) : i < b.length := by
  by_contra hc
  exact h (chAt_eq_default (Nat.le_of_not_lt hc))

/-- Length of the leading run of `'0'` bytes of a list. -/
def zerosRun : List Char → Nat
  | [] => 0
  | c :: r => if c = '0' then zerosRun r + 1 else 0

/-- Length of the leading run of digit bytes of a list. -/
def digitsRun : List Char → Nat
  | [] => 0
  | c :: r => if isDigitC c then digitsRun r + 1 else 0

/-- First position `≥ i` whose byte is not `'0'`: the leading-zero loops
`while(buf[i] == '0') i++;` of `parse_number`. -/
def skipZeros (b : List Char) (i : Nat) : Nat := i + zerosRun (b.drop i)

/-- First position `≥ i` whose byte is not a digit: the digit loops
`while(isdigit(buf[i])) i++;` of `parse_number`. -/
def skipDigits (b : List Char) (i : Nat) : Nat := i + digitsRun (b.drop i)

/-- Result of `parse_number` (ndiff.c:115): consumed length (0 = rejected),
digit count `n`, dot offset (−1 if absent), exponent-marker offset (−1 if
absent), `is_real` flag, and the possibly rewritten buffer (a Fortran
`d`/`D` exponent marker is normalized to `e` in place; a trailing exponent
prefix with no digits is rolled back and the marker restored).  When the
length is 0 the C function returns without writing its output parameters;
callers there only read them after a nonzero length, so the metadata of a
rejected parse is returned as zeros here. -/
structure ParseOut where
  len : Nat
  d : Int
  n : Nat
  e : Int
  f : Bool
  buf : List Char
deriving DecidableEq

/-- Sign offset of `parse_number` (ndiff.c:122): 1 when the first byte is a
sign. -/
def pn_i0 (b : List Char) (p : Nat) : Nat :=
  if chAt b p = '-' || chAt b p = '+' then 1 else 0

/-- Offset after dropping the leading zeros of the integer part
(ndiff.c:125). -/
def pn_i1 (b : List Char) (p : Nat) : Nat := skipZeros b (p + pn_i0 b p) - p

/-- Offset after the digits of the integer part (ndiff.c:128). -/
def pn_i2 (b : List Char) (p : Nat) : Nat := skipDigits b (p + pn_i1 b p) - p

/-- Counted digits of the integer part (leading zeros excluded). -/
def pn_n2 (b : List Char) (p : Nat) : Nat := pn_i2 b p - pn_i1 b p

/-- Whether a dot follows the integer part (ndiff.c:131). -/
def pn_hasDot (b : List Char) (p : Nat) : Bool := chAt b (p + pn_i2 b p) = '.'

/-- The C `d` marker: dot offset + 1, or 0 when there is no dot. -/
def pn_d (b : List Char) (p : Nat) : Nat :=
  if pn_hasDot b p then pn_i2 b p + 1 else 0

/-- Offset just after the dot (or after the integer part). -/
def pn_i3 (b : List Char) (p : Nat) : Nat :=
  if pn_hasDot b p then pn_i2 b p + 1 else pn_i2 b p

/-- Offset after dropping the leading zeros of the decimals, done only when
no integer digit was counted (ndiff.c:136). -/
def pn_i3a (b : List Char) (p : Nat) : Nat :=
  if pn_hasDot b p && pn_n2 b p = 0 then skipZeros b (p + pn_i3 b p) - p
  else pn_i3 b p

/-- Offset after the decimal digits (ndiff.c:139); without a dot this is
just the end of the integer part. -/
def pn_i4 (b : List Char) (p : Nat) : Nat :=
  if pn_hasDot b p then skipDigits b (p + pn_i3a b p) - p else pn_i3 b p

/-- Total counted digits. -/
def pn_n4 (b : List Char) (p : Nat) : Nat :=
  if pn_hasDot b p then pn_n2 b p + (pn_i4 b p - pn_i3a b p) else pn_n2 b p

/-- The acceptance check of `parse_number` (ndiff.c:143): at least `±#`,
`±#.` or `±.#`. -/
def pn_valid (b : List Char) (p : Nat) : Prop :=
  0 < pn_i4 b p ∧
  (isDigitC (chAt b (p + pn_i4 b p - 1)) ∨
   (1 < pn_i4 b p ∧ isDigitC (chAt b (p + pn_i4 b p - 2))))

instance (b : List Char) (p : Nat) : Decidable (pn_valid b p) := by
  unfold pn_valid
  infer_instance

/-- The exponent part of `parse_number` (ndiff.c:147): normalize a
`e`/`E`/`d`/`D` marker to `e` in place, accept an optionally signed digit
run, and roll the marker back (restoring the byte) when no digit follows.
`i4`, `d` and `n4` are the offsets and counts accumulated by the mantissa
scan. -/
def parse_exp (b : List Char) (p i4 d n4 : Nat) : ParseOut :=
  let cm := chAt b (p + i4)
  if cm = 'e' || cm = 'E' || cm = 'd' || cm = 'D' then
    let b1 := b.set (p + i4) 'e'
    let e : Nat := i4 + 1
    let i5 : Nat := if chAt b1 (p + e) = '-' || chAt b1 (p + e) = '+' then e + 1 else e
    let i6 : Nat := skipDigits b1 (p + i5) - p
    if ¬ isDigitC (chAt b1 (p + i6 - 1)) then
      -- rollback: restore the marker, no exponent
      ⟨e - 1, (d : Int) - 1, n4, -1, decide (0 < d), b1.set (p + i4) cm⟩
    else
      ⟨i6, (d : Int) - 1, n4, (e : Int) - 1, true, b1⟩
  else
    ⟨i4, (d : Int) - 1, n4, -1, decide (0 < d), b⟩

/-- `parse_number` (ndiff.c:115), operating at cursor `p` of buffer `b`;
all offsets in the result are relative to `p` as in the C code.  The scan
offsets are the `pn_*` stages above; a failed acceptance check returns
length 0 with the buffer untouched (the C function returns before writing
its output parameters; the metadata of a rejected parse is zeros here). -/
def parse_number (b : List Char) (p : Nat) : ParseOut :=
  if pn_valid b p then parse_exp b p (pn_i4 b p) (pn_d b p) (pn_n4 b p)
  else ⟨0, 0, 0, 0, false, b⟩

/-- ASCII hexadecimal digit (`isxdigit`). -/
def isHexDigitC (c : Char) : Bool :=
  isDigitC c || ('a' ≤ c && c ≤ 'f') || ('A' ≤ c && c ≤ 'F')

/-- Value of an ASCII hexadecimal digit. -/
def hexDigitVal (c : Char) : Nat :=
  if isDigitC c then c.toNat - 48
  else if 'a' ≤ c && c ≤ 'f' then c.toNat - 87
  else c.toNat - 55

/-- Value and length of the leading decimal-digit run, accumulating into
`acc`. -/
def decValAux : List Char → Nat → Nat × Nat
  | [], acc => (acc, 0)
  | c :: r, acc =>
    if isDigitC c then
      let t := decValAux r (10 * acc + (c.toNat - 48))
      (t.1, t.2 + 1)
    else (acc, 0)

/-- Value and length of the leading hexadecimal-digit run, accumulating into
`acc`. -/
def hexValAux : List Char → Nat → Nat × Nat
  | [], acc => (acc, 0)
  | c :: r, acc =>
    if isHexDigitC c then
      let t := hexValAux r (16 * acc + hexDigitVal c)
      (t.1, t.2 + 1)
    else (acc, 0)

/-- Modelled from the C standard: `strtod` (C99 7.20.1.3) applied to the
tail of a list, returning the exact value of the subject sequence and the
number of bytes consumed (0 when there is no conversion).  Both the decimal
form `sign? digits? (. digits?)? ([eE] sign? digits)?` and the hexadecimal
form `sign? 0[xX] hexdigits? (. hexdigits?)? ([pP] sign? digits)?` are
recognized, with the standard's longest-valid-prefix rule (an exponent
marker without following digits is not consumed; `0x` without hex digits
converts as plain `0`).  The `infinity`/`nan` subjects are omitted: every
call site in `ndiff.c` applies `strtod` at a byte accepted by the lexer as
the start of a literal, which is a sign, digit or dot, never `i`/`n`.
The value is exact in `ℚ` where a C library would round to `double`; no
theorem below depends on that rounding. -/
def strtodList (s : List Char) : ℚ × Nat :=
  let sgn : ℚ := if chAt s 0 = '-' then -1 else 1
  let c0 : Nat := if chAt s 0 = '-' || chAt s 0 = '+' then 1 else 0
  let s1 := s.drop c0
  if chAt s1 0 = '0' && (chAt s1 1 = 'x' || chAt s1 1 = 'X') then
    let hvc := hexValAux (s1.drop 2) 0
    let s2 := s1.drop (2 + hvc.2)
    let fvc := if chAt s2 0 = '.' then hexValAux (s2.drop 1) 0 else (0, 0)
    if hvc.2 + fvc.2 = 0 then (0, c0 + 1)
    else
      let dotc : Nat := if chAt s2 0 = '.' then 1 else 0
      let mant : ℚ := sgn * ((hvc.1 : ℚ) + (fvc.1 : ℚ) / (16 : ℚ) ^ fvc.2)
      let pos := c0 + 2 + hvc.2 + dotc + fvc.2
      let s3 := s2.drop (dotc + fvc.2)
      if chAt s3 0 = 'p' || chAt s3 0 = 'P' then
        let es : Int := if chAt s3 1 = '-' then -1 else 1
        let ec0 : Nat := if chAt s3 1 = '-' || chAt s3 1 = '+' then 1 else 0
        let evk := decValAux (s3.drop (1 + ec0)) 0
        if evk.2 = 0 then (mant, pos)
        else (mant * (2 : ℚ) ^ (es * (evk.1 : Int)), pos + 1 + ec0 + evk.2)
      else (mant, pos)
  else
    let ivc := decValAux s1 0
    let s2 := s1.drop ivc.2
    let fvc := if chAt s2 0 = '.' then decValAux (s2.drop 1) 0 else (0, 0)
    if ivc.2 + fvc.2 = 0 then (0, 0)
    else
      let dotc : Nat := if chAt s2 0 = '.' then 1 else 0
      let mant : ℚ := sgn * ((ivc.1 : ℚ) + (fvc.1 : ℚ) / (10 : ℚ) ^ fvc.2)
      let pos := c0 + ivc.2 + dotc + fvc.2
      let s3 := s2.drop (dotc + fvc.2)
      if chAt s3 0 = 'e' || chAt s3 0 = 'E' then
        let es : Int := if chAt s3 1 = '-' then -1 else 1
        let ec0 : Nat := if chAt s3 1 = '-' || chAt s3 1 = '+' then 1 else 0
        let evk := decValAux (s3.drop (1 + ec0)) 0
        if evk.2 = 0 then (mant, pos)
        else (mant * (10 : ℚ) ^ (es * (evk.1 : Int)), pos + 1 + ec0 + evk.2)
      else (mant, pos)

/-- `strtod` started at cursor `p` of buffer `b`. -/
def strtod (b : List Char) (p : Nat) : ℚ × Nat := strtodList (b.drop p)

/-- Modelled from the spec: the register file (`register.h`, not under
`src/`).  A fixed array of doubles with index 0 reserved; `get(R,i,v)`
returns `R[i]` for a valid index and the fallback `v` otherwise; `set` is
bounds-checked.  The array of size `n` is modelled as a total function with
valid indices `0 < i < n`. -/
def reg_getval (reg : Nat → ℚ) (n : Nat) (i : Nat) (v : ℚ) : ℚ :=
  if 0 < i ∧ i < n then reg i else v

/-- Modelled from the spec: bounds-checked register write (`register.h`). -/
def reg_setval (reg : Nat → ℚ) (n : Nat) (i : Nat) (v : ℚ) : Nat → ℚ :=
  if 0 < i ∧ i < n then fun j => if j = i then v else reg j else reg

/-- Modelled from the spec: the small arithmetic vocabulary of the register
op programs (`register.h`). -/
inductive RegOp
  | add | sub | mul | div | rmin | rmax | rabs | mov
deriving DecidableEq

/-- Modelled from the spec: `eval(R, dst, a, b, op)` — `R[dst] := R[a] ⊕ R[b]`
(`register.h`). -/
def reg_eval (reg : Nat → ℚ) (n : Nat) (dst a b : Nat) (op : RegOp) : Nat → ℚ :=
  let x := reg_getval reg n a 0
  let y := reg_getval reg n b 0
  let v : ℚ := match op with
    | .add => x + y
    | .sub => x - y
    | .mul => x * y
    | .div => x / y
    | .rmin => min x y
    | .rmax => max x y
    | .rabs => |x|
    | .mov => x
  reg_setval reg n dst v

/-- Modelled from the spec: the command flags of a rule
(`enum eps_cmd`, `constraint.h`, not under `src/`).  The C bitmask over
distinct bits is modelled as a record of booleans, one per flag in the
spec's list (`eps_omit` is spelled `omitc`, `omit` being a Lean keyword). -/
structure EpsCmd where
  skip : Bool := false
  goto : Bool := false
  gonum : Bool := false
  equ : Bool := false
  ign : Bool := false
  abs : Bool := false
  rel : Bool := false
  dig : Bool := false
  any : Bool := false
  omitc : Bool := false
  istr : Bool := false
  lhs : Bool := false
  rhs : Bool := false
  swap : Bool := false
  save : Bool := false
  nofail : Bool := false
  onfail : Bool := false
  trace : Bool := false
  traceR : Bool := false
  sgg : Bool := false
deriving DecidableEq

/-- Modelled from the spec: a column slice of a rule (`slice.h`, not under
`src/`), supporting `slice_isFull` and `slice_isElem`. -/
structure Slice where
  full : Bool := true
  lo : Nat := 0
  hi : Nat := 0
deriving DecidableEq

/-- Modelled from the spec: `slice_isFull`. -/
def slice_isFull (s : Slice) : Bool := s.full

/-- Modelled from the spec: `slice_isElem`. -/
def slice_isElem (s : Slice) (n : Nat) : Bool :=
  s.full || (s.lo ≤ n && n ≤ s.hi)

/-- Modelled from the spec: the `eps` tolerance record of a rule
(`struct eps`, `constraint.h`): command flags, scalar fields with their
register-indirection indices (0 = no register, the reserved sentinel), the
tag string, and the register-op program as a flat list of
`(dst, src, src2, op)` quadruples. -/
structure Eps where
  cmd : EpsCmd := {}
  lhs : ℚ := 0
  rhs : ℚ := 0
  scl : ℚ := 1
  off : ℚ := 0
  abs : ℚ := 0
  nabs : ℚ := 0
  rel : ℚ := 0
  nrel : ℚ := 0
  dig : ℚ := 0
  ndig : ℚ := 0
  lhs_reg : Nat := 0
  rhs_reg : Nat := 0
  scl_reg : Nat := 0
  off_reg : Nat := 0
  abs_reg : Nat := 0
  nabs_reg : Nat := 0
  rel_reg : Nat := 0
  nrel_reg : Nat := 0
  dig_reg : Nat := 0
  ndig_reg : Nat := 0
  gto_reg : Nat := 0
  tag : List Char := []
  ops : List (Nat × Nat × Nat × RegOp) := []
deriving DecidableEq

/-- Modelled from the spec: a constraint — an `eps` record plus the column
slice it applies to (`struct constraint`, `constraint.h`).  The C fields
`_abs`, `_rel`, `_dig` (lower bounds) are spelled `nabs`, `nrel`, `ndig`
here. -/
structure Constraint where
  eps : Eps := {}
  col : Slice := {}
deriving DecidableEq

/-- The diff state `struct ndiff` (ndiff.c:37).  `FILE*` streams are
modelled as the list of remaining newline-terminated lines plus a sticky
end-of-file flag (the `feof` bit of the `FILE`); the context pointer is
modelled as the pure rule-lookup function the spec requires of a context
(`getInc`/`getAt` agree on it); registers are a total function with
`reg_n` the allocated count. -/
structure Ndiff where
  lhs_f : List (List Char) := []
  rhs_f : List (List Char) := []
  lhs_eof : Bool := false
  rhs_eof : Bool := false
  row_i : Nat := 0
  col_i : Nat := 0
  cxt : Nat → Nat → Constraint := fun _ _ => {}
  reg : Nat → ℚ := fun _ => 0
  reg_n : Nat := 0
  blank : Bool := false
  check : Bool := false
  cnt_i : Nat := 0
  max_i : Nat := 0
  num_i : Nat := 0
  lhs_i : Nat := 0
  rhs_i : Nat := 0
  buf_n : Nat := 0
  lhs_b : List Char := []
  rhs_b : List Char := []

/-- `is_number` (ndiff.c:72): optional sign (or blank), optional dot, then a
digit. -/
def is_number (b : List Char) (i : Nat) : Bool :=
  let i1 := if chAt b i = '-' || chAt b i = '+' || chAt b i = ' ' then i + 1 else i
  let i2 := if chAt b i1 = '.' then i1 + 1 else i1
  isDigitC (chAt b i2)

/-- `backtrack_number` (ndiff.c:87): step back over a dot and/or sign to the
start of a number body validated by `is_number` (`beg` is index 0). -/
def backtrack_number (b : List Char) (i : Nat) : Nat :=
  if chAt b i = ' ' then i + 1
  else if chAt b i = '.' then
    if 0 < i ∧ (chAt b (i-1) = '-' ∨ chAt b (i-1) = '+') then i - 1 else i
  else if isDigitC (chAt b i) then
    let j := if 0 < i ∧ chAt b (i-1) = '.' then i - 1 else i
    if 0 < j ∧ (chAt b (j-1) = '-' ∨ chAt b (j-1) = '+') then j - 1 else j
  else i

/-- `is_number_start` (ndiff.c:107): at a sign, at the buffer beginning, or
immediately after a separator. -/
def is_number_start (chr : List Char) (b : List Char) (i : Nat) : Bool :=
  chAt b i = '-' || chAt b i = '+' || decide (i = 0) ||
  (decide (0 < i) && is_separator chr (chAt b (i-1)))

/-- Length of the strict lockstep identifier run: the loop
`while (**lhs == **rhs && !is_separator(**lhs))` of `skip_identifier`
(ndiff.c:170), walking two tails in parallel (a missing byte reads as NUL,
which is a separator, so the run stops at either end). -/
def identRunStrict (chr : List Char) : List Char → List Char → Nat
  | a :: as, b :: bs =>
    if a = b && !(is_separator chr a) then identRunStrict chr as bs + 1 else 0
  | _, _ => 0

/-- Length of the loose identifier run: `while (!is_separator(**p))`. -/
def identRunLoose (chr : List Char) : List Char → Nat
  | [] => 0
  | c :: r => if !(is_separator chr c) then identRunLoose chr r + 1 else 0

/-- `skip_identifier` (ndiff.c:170) in strict mode on the pair of cursors. -/
def skipIdentStrict (chr : List Char) (lb rb : List Char) (p q : Nat) : Nat × Nat :=
  let k := identRunStrict chr (lb.drop p) (rb.drop q)
  (p + k, q + k)

/-- `skip_identifier` (ndiff.c:170) in loose mode on one cursor. -/
def skipIdentLoose (chr : List Char) (b : List Char) (p : Nat) : Nat :=
  p + identRunLoose chr (b.drop p)

/-- Backward three-way comparison of `is_valid_omit` (ndiff.c:184): walks
the tag and the two buffer prefixes backwards in lockstep, succeeding when
any of the three runs out. -/
def omitCmp : List Char → List Char → List Char → Bool
  | t :: ts, a :: as, b :: bs => (t = a && t = b) && omitCmp ts as bs
  | _, _, _ => true

/-- `is_valid_omit` (ndiff.c:184): the bytes immediately preceding the two
cursors match the tail of `tag`. -/
def is_valid_omit (lb rb : List Char) (p q : Nat) (tag : List Char) : Bool :=
  omitCmp tag.reverse ((lb.take p).reverse) ((rb.take q).reverse)

/-- Length of the lockstep equality walk of `ndiff_nextNum` (ndiff.c:590):
`while (*lhs_p && *lhs_p == *rhs_p && !isdigit(*lhs_p))` on two tails. -/
def eqWalkRun : List Char → List Char → Nat
  | a :: as, b :: bs =>
    if a ≠ nulChar && a = b && !(isDigitC a) then eqWalkRun as bs + 1 else 0
  | _, _ => 0

/-- Length of the digit search of the `istr` mode (ndiff.c:585):
`while (*p && !isdigit(*p))`. -/
def nonDigitRun : List Char → Nat
  | [] => 0
  | c :: r => if c ≠ nulChar && !(isDigitC c) then nonDigitRun r + 1 else 0

/-- Length of the blank run (ndiff.c:595): `while (isblank(*p))`. -/
def blankRun : List Char → Nat
  | [] => 0
  | c :: r => if isBlankC c then blankRun r + 1 else 0

/-- `ndiff_reset_buf` (ndiff.c:197): zero the cursors and empty both line
buffers (capacity is unchanged). -/
def ndiff_reset_buf (d : Ndiff) : Ndiff :=
  { d with lhs_i := 0, rhs_i := 0, lhs_b := [], rhs_b := [] }

/-- `ndiff_setup` (ndiff.c:204).  `REG_MAX` comes from `register.h`, which
is not under `src/`; it is passed as the parameter `regMax` (the spec's
data model implies `99 ≤ REG_MAX`).  Allocation itself cannot fail in the
model; the fresh buffers hold the empty string and the registers are
zeroed, and the compound literal preserves exactly the streams, buffers,
`blank`, `check`, `max_i`, registers, context and capacity while zeroing
every other field. -/
def ndiff_setup (regMax : Nat) (d : Ndiff) (n r : Nat) : Ndiff :=
  let n1 := if n < 65536 then 65536 else n
  let r1 := if r < 99 then 99 else r
  let r2 := if r1 > regMax then regMax else r1
  { lhs_f := d.lhs_f, rhs_f := d.rhs_f, lhs_eof := d.lhs_eof, rhs_eof := d.rhs_eof,
    lhs_b := [], rhs_b := [],
    blank := d.blank, check := d.check,
    max_i := d.max_i,
    reg := fun _ => 0, reg_n := r2,
    cxt := d.cxt,
    buf_n := n1 }

/-- `ndiff_teardown` (ndiff.c:233): free buffers and registers; the
compound literal keeps only the streams, `blank`, `check` and the context
(every other field, `max_i` included, becomes zero). -/
def ndiff_teardown (d : Ndiff) : Ndiff :=
  { lhs_f := d.lhs_f, rhs_f := d.rhs_f, lhs_eof := d.lhs_eof, rhs_eof := d.rhs_eof,
    blank := d.blank, check := d.check, cxt := d.cxt }

/-- `ndiff_grow` (ndiff.c:247): enlarge the capacity on need. -/
def ndiff_grow (d : Ndiff) (n : Nat) : Ndiff :=
  if n > d.buf_n then { d with buf_n := n } else d

/-- `ndiff_alloc` (ndiff.c:299): fresh object holding the two streams and
the context, then `ndiff_setup`. -/
def ndiff_alloc (regMax : Nat) (lhs_f rhs_f : List (List Char))
    (cxt : Nat → Nat → Constraint) (n r : Nat) : Ndiff :=
  ndiff_setup regMax { lhs_f := lhs_f, rhs_f := rhs_f, cxt := cxt } n r

/-- `ndiff_clear` (ndiff.c:321): teardown, then setup with the saved
register count and a zero buffer hint. -/
def ndiff_clear (regMax : Nat) (d : Ndiff) : Ndiff :=
  ndiff_setup regMax (ndiff_teardown d) 0 d.reg_n

/-- `ndiff_option` (ndiff.c:836): each argument optionally overwrites the
corresponding option (a C null pointer is `none`).  The `ensure` that
`max_i` stays positive aborts the process and is not modelled. -/
def ndiff_option (d : Ndiff) (keep : Option Nat) (blank chk : Option Bool) : Ndiff :=
  let d1 := match keep with | some k => { d with max_i := k } | none => d
  let d2 := match blank with | some b => { d1 with blank := b } | none => d1
  match chk with | some c => { d2 with check := c } | none => d2

/-- `ndiff_getInfo` (ndiff.c:848): row, column, diff count, number count. -/
def ndiff_getInfo (d : Ndiff) : Nat × Nat × Nat × Nat :=
  (d.row_i, d.col_i, d.cnt_i, d.num_i)

/-- `ndiff_feof` (ndiff.c:859). -/
def ndiff_feof (d : Ndiff) (both : Bool) : Bool :=
  if both then d.lhs_eof && d.rhs_eof else d.lhs_eof || d.rhs_eof

/-- `ndiff_isempty` (ndiff.c:868): both cursors reference a NUL byte. -/
def ndiff_isempty (d : Ndiff) : Bool :=
  chAt d.lhs_b d.lhs_i = nulChar && chAt d.rhs_b d.rhs_i = nulChar

/-- Modelled from the spec: the doubling growth schedule of `readLine`
(`utils.h`, not under `src/`) — the capacity is doubled until the line
fits.  The capacity is at least 65536 whenever the engine reads, so the
`cap = 0` guard is never exercised. -/
def fitCapGo (need : Nat) : Nat → Nat → Nat
  | 0, cap => cap
  | f + 1, cap => if need ≤ cap ∨ cap = 0 then cap else fitCapGo need f (2 * cap)

/-- Entry to the doubling schedule.  `need` iterations always suffice: a
positive capacity at least doubles each step, so it reaches `need` within
`need` steps and the recursion is in fact never cut short. -/
def fitCap (cap need : Nat) : Nat := fitCapGo need need cap

/-- `ndiff_skipLine` (ndiff.c:330): discard one line on each side, reset
buffers and cursors, advance the row.  Returns `true` for EOF (either side
exhausted). -/
def ndiff_skipLine (d : Ndiff) : Ndiff × Bool :=
  let d0 := ndiff_reset_buf d
  let e1 := d0.lhs_f.isEmpty
  let e2 := d0.rhs_f.isEmpty
  ({ d0 with lhs_f := d0.lhs_f.tail, rhs_f := d0.rhs_f.tail,
             lhs_eof := d0.lhs_eof || e1, rhs_eof := d0.rhs_eof || e2,
             col_i := 0, row_i := d0.row_i + 1 }, e1 || e2)

/-- `ndiff_fillLine` (ndiff.c:348): load the given strings into the
buffers; never fails. -/
def ndiff_fillLine (d : Ndiff) (lb rb : List Char) : Ndiff :=
  let d0 := ndiff_reset_buf d
  let d1 := ndiff_grow d0 (max (lb.length + 1) (rb.length + 1))
  { d1 with lhs_b := lb, rhs_b := rb, col_i := 0, row_i := d1.row_i + 1 }

/-- `ndiff_readLine` (ndiff.c:368), with `readLine` of `utils.h` modelled
from the spec: one newline-terminated line is moved from each stream into
its buffer (the terminator is not stored), the capacity doubling until the
longer line fits; reading an exhausted stream yields EOF and an empty
buffer and sets that side's `feof` flag.  Returns `true` for EOF. -/
def ndiff_readLine (d : Ndiff) : Ndiff × Bool :=
  let d0 := ndiff_reset_buf d
  let e1 := d0.lhs_f.isEmpty
  let e2 := d0.rhs_f.isEmpty
  let lb := d0.lhs_f.headD []
  let rb := d0.rhs_f.headD []
  ({ d0 with lhs_f := d0.lhs_f.tail, rhs_f := d0.rhs_f.tail,
             lhs_b := lb, rhs_b := rb,
             lhs_eof := d0.lhs_eof || e1, rhs_eof := d0.rhs_eof || e2,
             buf_n := fitCap d0.buf_n (max (lb.length + 1) (rb.length + 1)),
             col_i := 0, row_i := d0.row_i + 1 }, e1 || e2)

/-- `ndiff_outLine` (ndiff.c:395): the pair of lines written to the
optional output streams. -/
def ndiff_outLine (d : Ndiff) : List Char × List Char :=
  (d.lhs_b, d.rhs_b)

/-- Exit kind of `ndiff_nextNum`: a pair of numbers was found, a
non-numeric difference was surfaced (the `quit_diff` label), or the line
pair was consumed cleanly (the `quit_str` label reached directly). -/
inductive ScanExit
  | found
  | diff
  | eol
deriving DecidableEq

/-- The part of the `retry` loop body of `ndiff_nextNum` after the search
phase (ndiff.c:601 onward), at walking positions `p`/`q`: the end-of-line
check, the text-difference check, the number backtracking and the
number-start check.  `Sum.inl` is an exit of the loop (new state, column,
exit kind); `Sum.inr` are the positions for the next `goto retry`
iteration (identifier skipping).  The `warning`/`trace` diagnostics and
the `context_onfail` notification are output only and are not modelled;
the `cnt_i` increment of the `quit_diff` path is. -/
def nextNumJoin (chr : List Char) (d : Ndiff) (c : Constraint) (p q : Nat) :
    (Ndiff × Nat × ScanExit) ⊕ (Nat × Nat) :=
  -- end-of-line
  if chAt d.lhs_b p = nulChar ∧ chAt d.rhs_b q = nulChar then
    Sum.inl ({ d with lhs_i := p + 1, rhs_i := q + 1, col_i := 0 }, 0, ScanExit.eol)
  -- difference in not-a-number
  else if chAt d.lhs_b p ≠ chAt d.rhs_b q ∧
          (is_number d.lhs_b p = false ∨ is_number d.rhs_b q = false) then
    let d1 := { d with lhs_i := p + 1, rhs_i := q + 1 }
    let d2 := if !c.eps.cmd.nofail then { d1 with cnt_i := d1.cnt_i + 1 } else d1
    Sum.inl ({ d2 with col_i := 0 }, 0, ScanExit.diff)
  else
    -- backtrack numbers
    let p1 := backtrack_number d.lhs_b p
    let q1 := backtrack_number d.rhs_b q
    -- at the start of a number?
    if is_number_start chr d.lhs_b p1 = false ∨ is_number_start chr d.rhs_b q1 = false then
      if c.eps.cmd.istr then
        Sum.inr
          (if is_number_start chr d.lhs_b p1 = false then skipIdentLoose chr d.lhs_b p1 else p1,
           if is_number_start chr d.rhs_b q1 = false then skipIdentLoose chr d.rhs_b q1 else q1)
      else
        let strict := if c.eps.cmd.omitc then !(is_valid_omit d.lhs_b d.rhs_b p1 q1 c.eps.tag) else true
        if strict then Sum.inr (skipIdentStrict chr d.lhs_b d.rhs_b p1 q1)
        else Sum.inr (skipIdentLoose chr d.lhs_b p1, skipIdentLoose chr d.rhs_b q1)
    else
      -- numbers found
      Sum.inl ({ d with lhs_i := p1, rhs_i := q1,
                        num_i := d.num_i + 1, col_i := d.col_i + 1 },
               d.col_i + 1, ScanExit.found)

/-- One iteration of the `retry` loop of `ndiff_nextNum` (ndiff.c:581):
the search phase (digits in `istr` mode, difference-or-digits otherwise,
with blank compression retrying directly), then `nextNumJoin`. -/
def nextNumStep (chr : List Char) (d : Ndiff) (c : Constraint) (p0 q0 : Nat) :
    (Ndiff × Nat × ScanExit) ⊕ (Nat × Nat) :=
  -- search for digits (istr mode) or for difference-or-digits
  if c.eps.cmd.istr then
    nextNumJoin chr d c
      (p0 + nonDigitRun (d.lhs_b.drop p0)) (q0 + nonDigitRun (d.rhs_b.drop q0))
  else
    let k := eqWalkRun (d.lhs_b.drop p0) (d.rhs_b.drop q0)
    let p := p0 + k
    let q := q0 + k
    -- skip whitespace differences
    if d.blank && (isBlankC (chAt d.lhs_b p) || isBlankC (chAt d.rhs_b q)) then
      Sum.inr (p + blankRun (d.lhs_b.drop p), q + blankRun (d.rhs_b.drop q))
    else
      nextNumJoin chr d c p q

/-- The `retry` loop of `ndiff_nextNum`, fuel-indexed (`none` = fuel
exhausted; the theorems always supply enough). -/
def nextNumGo (chr : List Char) (d : Ndiff) (c : Constraint) :
    Nat → Nat → Nat → Option (Ndiff × Nat × ScanExit)
  | 0, _, _ => none
  | fuel + 1, p0, q0 =>
    match nextNumStep chr d c p0 q0 with
    | Sum.inl r => some r
    | Sum.inr pq => nextNumGo chr d c fuel pq.1 pq.2

/-- `ndiff_nextNum` (ndiff.c:568): entry check plus the `retry` loop. -/
def ndiff_nextNum (chr : List Char) (fuel : Nat) (d : Ndiff) (c : Constraint) :
    Option (Ndiff × Nat × ScanExit) :=
  if ndiff_isempty d then
    some ({ d with lhs_i := d.lhs_i + 1, rhs_i := d.rhs_i + 1, col_i := 0 }, 0, ScanExit.eol)
  else
    nextNumGo chr d c fuel d.lhs_i d.rhs_i

/-- The bitmask of violated tolerance axes returned by `ndiff_testNum`,
modelled as a record of the five flags that can be set there. -/
structure TestRet where
  ign : Bool := false
  equ : Bool := false
  abs : Bool := false
  rel : Bool := false
  dig : Bool := false
deriving DecidableEq

/-- The C test `!ret` on the returned bitmask. -/
def TestRet.isZero (r : TestRet) : Bool :=
  !(r.ign || r.equ || r.abs || r.rel || r.dig)

/-- The C accumulation `ret |= ndiff_testNum(...)` of the driver loop. -/
def TestRet.or (a b : TestRet) : TestRet :=
  ⟨a.ign || b.ign, a.equ || b.equ, a.abs || b.abs, a.rel || b.rel, a.dig || b.dig⟩

/-- The local variables of one `ndiff_testNum` run, exposed alongside the
returned bitmask (they are observable through registers 1–9 when saved). -/
structure TestOut where
  ret : TestRet := {}
  l1 : Nat := 0
  l2 : Nat := 0
  lhs_d : ℚ := 0
  rhs_d : ℚ := 0
  dif_d : ℚ := 0
  err_d : ℚ := 0
  abs_d : ℚ := 0
  rel_d : ℚ := 0
  dig_d : ℚ := 0
  min_d : ℚ := 0
  pow_d : ℚ := 0
deriving DecidableEq

/-- `pow10(-k)` for natural `k` (ndiff.c:694 computes `pow10(-imax(n1,n2))`).
Exact in `ℚ` where libm rounds to `double`; no theorem below depends on
that rounding. -/
def pow10m (k : Nat) : ℚ := ((10 ^ k : ℕ) : ℚ)⁻¹

/-- The `quit_diff` label of `ndiff_testNum` (ndiff.c:763): count the
difference unless the rule says `nofail` (the header and per-axis warnings,
printed while `cnt_i ≤ max_i`, and the `context_onfail` notification are
output only and are not modelled). -/
def testNumDiffHit (d : Ndiff) (c : Constraint) : Ndiff :=
  if !c.eps.cmd.nofail then { d with cnt_i := d.cnt_i + 1 } else d

/-- The `quit` label of `ndiff_testNum` (ndiff.c:796): when the result is
zero or the rule says `save`, write registers 1–9 and run the rule's
register-op program (the `traceR` branch runs the same ops, plus
printing); finally advance both cursors past the parsed literals. -/
def testNumQuit (d : Ndiff) (c : Constraint) (o : TestOut) : Ndiff × TestOut :=
  let d1 :=
    if o.ret.isZero || c.eps.cmd.save then
      let r1v := if c.eps.lhs_reg ≠ 0 ∨ c.eps.cmd.lhs then
                   (strtod (if c.eps.cmd.swap then d.rhs_b else d.lhs_b)
                           (if c.eps.cmd.swap then d.rhs_i else d.lhs_i)).1
                 else o.lhs_d
      let r2v := if c.eps.rhs_reg ≠ 0 ∨ c.eps.cmd.rhs then
                   (strtod (if c.eps.cmd.swap then d.lhs_b else d.rhs_b)
                           (if c.eps.cmd.swap then d.lhs_i else d.rhs_i)).1
                 else o.rhs_d
      let g1 := reg_setval d.reg d.reg_n 1 r1v
      let g2 := reg_setval g1 d.reg_n 2 r2v
      let g3 := reg_setval g2 d.reg_n 3 o.dif_d
      let g4 := reg_setval g3 d.reg_n 4 o.err_d
      let g5 := reg_setval g4 d.reg_n 5 o.abs_d
      let g6 := reg_setval g5 d.reg_n 6 o.rel_d
      let g7 := reg_setval g6 d.reg_n 7 o.dig_d
      let g8 := reg_setval g7 d.reg_n 8 o.min_d
      let g9 := reg_setval g8 d.reg_n 9 o.pow_d
      let gf := c.eps.ops.foldl
        (fun g t => reg_eval g d.reg_n t.1 t.2.1 t.2.2.1 t.2.2.2) g9
      { d with reg := gf }
    else d
  ({ d1 with lhs_i := d1.lhs_i + o.l1, rhs_i := d1.rhs_i + o.l2 }, o)

/-- `ndiff_testNum` (ndiff.c:657).  The two literals are parsed (mutating
the buffers in place), the scalars resolved through register indirection,
the error formulas computed, the axes tested, and the `quit_diff`/`quit`
epilogues applied.  On the swap path the source assigns the saved `lhs_d`
to the undeclared variable `lhd_d` (a typo; the file does not even compile
as shipped); the net effect of the three statements on the declared pair —
`tmp = lhs_d; lhd_d = rhs_d; rhs_d = tmp;` — is `rhs_d := lhs_d` with
`lhs_d` unchanged, and that as-written effect is embedded.  The asserts
that `strtod` consume exactly the parsed lengths are checked separately
(claim C2); asserts do not change state when they hold. -/
def ndiff_testNum (d : Ndiff) (c : Constraint) : Ndiff × TestOut :=
  let po1 := parse_number d.lhs_b d.lhs_i
  let po2 := parse_number d.rhs_b d.rhs_i
  let d1 := { d with lhs_b := po1.buf, rhs_b := po2.buf }
  let l1 := po1.len
  let l2 := po2.len
  -- missing numbers (no eval)
  if l1 = 0 ∨ l2 = 0 then
    if c.eps.cmd.ign && c.eps.cmd.istr then
      testNumQuit d1 c { l1 := l1, l2 := l2 }
    else
      testNumQuit (testNumDiffHit d1 c) c { ret := { ign := true }, l1 := l1, l2 := l2 }
  else
    -- load/interpret numbers
    let lhs_d0 := reg_getval d1.reg d1.reg_n c.eps.lhs_reg
      (if c.eps.cmd.lhs then c.eps.lhs else (strtod d1.lhs_b d1.lhs_i).1)
    let rhs_d0 := reg_getval d1.reg d1.reg_n c.eps.rhs_reg
      (if c.eps.cmd.rhs then c.eps.rhs else (strtod d1.rhs_b d1.rhs_i).1)
    let scl_d := reg_getval d1.reg d1.reg_n c.eps.scl_reg c.eps.scl
    let off_d := reg_getval d1.reg d1.reg_n c.eps.off_reg c.eps.off
    let min0 := min |lhs_d0| |rhs_d0|
    let pow_d := pow10m (max po1.n po2.n)
    -- if one number is zero -> relative becomes absolute
    let min_d := if ¬(min0 > 0) then 1 else min0
    -- swap lhs and rhs (gtonum): as written, `rhs_d := lhs_d`, `lhs_d` kept
    let lhs_d := lhs_d0
    let rhs_d := if c.eps.cmd.swap then lhs_d0 else rhs_d0
    -- compute errors
    let dif_d := lhs_d - rhs_d
    let err_d := scl_d * dif_d
    let abs_d := err_d + off_d
    let rel_d := abs_d / min_d
    let dig_d := abs_d / (min_d * pow_d)
    let o0 : TestOut := { l1 := l1, l2 := l2, lhs_d := lhs_d, rhs_d := rhs_d,
                          dif_d := dif_d, err_d := err_d, abs_d := abs_d,
                          rel_d := rel_d, dig_d := dig_d, min_d := min_d,
                          pow_d := pow_d }
    -- ignore difference
    if c.eps.cmd.ign then testNumQuit d1 c o0
    -- omit difference
    else if c.eps.cmd.omitc &&
            is_valid_omit d1.lhs_b d1.rhs_b d1.lhs_i d1.rhs_i c.eps.tag then
      testNumQuit d1 c o0
    -- strict comparison
    else if c.eps.cmd.equ then
      if l1 ≠ l2 ∨ (d1.lhs_b.drop d1.lhs_i).take l1 ≠ (d1.rhs_b.drop d1.rhs_i).take l1 then
        testNumQuit (testNumDiffHit d1 c) c { o0 with ret := { equ := true } }
      else
        testNumQuit d1 c o0
    else
      -- absolute comparison
      let abB := reg_getval d1.reg d1.reg_n c.eps.abs_reg c.eps.abs
      let nabB := if c.eps.nabs_reg ≠ 0 ∧ c.eps.nabs_reg = c.eps.abs_reg then -abB
                  else reg_getval d1.reg d1.reg_n c.eps.nabs_reg c.eps.nabs
      let rAbs := c.eps.cmd.abs && decide (abs_d > abB ∨ abs_d < nabB)
      -- relative comparison
      let reB := reg_getval d1.reg d1.reg_n c.eps.rel_reg c.eps.rel
      let nreB := if c.eps.nrel_reg ≠ 0 ∧ c.eps.nrel_reg = c.eps.rel_reg then -reB
                  else reg_getval d1.reg d1.reg_n c.eps.nrel_reg c.eps.nrel
      let rRel := c.eps.cmd.rel && decide (rel_d > reB ∨ rel_d < nreB)
      -- input-specific relative comparison (does not apply to integers)
      let diB := reg_getval d1.reg d1.reg_n c.eps.dig_reg c.eps.dig
      let ndiB := if c.eps.ndig_reg ≠ 0 ∧ c.eps.ndig_reg = c.eps.dig_reg then -diB
                  else reg_getval d1.reg d1.reg_n c.eps.ndig_reg c.eps.ndig
      let rDig := (c.eps.cmd.dig && (po1.f || po2.f)) && decide (dig_d > diB ∨ dig_d < ndiB)
      let ret2 : TestRet := { abs := rAbs, rel := rRel, dig := rDig }
      -- any-mode collapse (ndiff.c:760)
      let ret3 := if c.eps.cmd.any &&
          !(decide (rAbs = c.eps.cmd.abs ∧ rRel = c.eps.cmd.rel ∧ rDig = c.eps.cmd.dig)) then
          ({} : TestRet)
        else ret2
      let o1 := { o0 with ret := ret3 }
      if ret3.isZero then testNumQuit d1 c o1
      else testNumQuit (testNumDiffHit d1 c) c o1

/-- Byte-prefix test on lists (the inner comparison of `strstr`). -/
def isPrefixC : List Char → List Char → Bool
  | [], _ => true
  | _ :: _, [] => false
  | a :: as, b :: bs => a = b && isPrefixC as bs

/-- Modelled from the spec: `strstr(buf, tag) != NULL` — `tag` occurs as a
substring of `buf` (the empty tag always matches). -/
def isSubstr (tag : List Char) : List Char → Bool
  | [] => isPrefixC tag []
  | l :: ls => isPrefixC tag (l :: ls) || isSubstr tag ls

/-- Result of one side's line search in `ndiff_gotoLine` (ndiff.c:416/438):
lines consumed (the C `i1`/`i2` counters, the read hitting end-of-stream
included), the final buffer contents, whether the stream was exhausted,
the remaining stream, and the longest line moved through the buffer (for
the capacity growth). -/
structure SideSearchOut where
  delta : Nat
  buf : List Char
  eof : Bool
  rest : List (List Char)
  maxLen : Nat
deriving DecidableEq

/-- One side of `ndiff_gotoLine`: read lines until one contains the tag or
the stream is exhausted (on exhaustion the loop counts one final EOF read
and leaves an empty buffer). -/
def sideSearch (tag : List Char) : List (List Char) → SideSearchOut
  | [] => ⟨1, [], true, [], 0⟩
  | l :: rest =>
    if isSubstr tag l then ⟨1, l, false, rest, l.length⟩
    else
      let t := sideSearch tag rest
      ⟨t.delta + 1, t.buf, t.eof, t.rest, max l.length t.maxLen⟩

/-- `ndiff_gotoLine` (ndiff.c:406): advance each side independently until a
line containing the rule's tag is found or EOF; zero both cursors and the
column; advance `row_i` by the smaller of the two per-side line counts.
Returns `true` for EOF. -/
def ndiff_gotoLine (d : Ndiff) (c : Constraint) : Ndiff × Bool :=
  let t1 := sideSearch c.eps.tag d.lhs_f
  let t2 := sideSearch c.eps.tag d.rhs_f
  ({ d with lhs_f := t1.rest, rhs_f := t2.rest,
            lhs_b := t1.buf, rhs_b := t2.buf,
            lhs_i := 0, rhs_i := 0,
            lhs_eof := d.lhs_eof || t1.eof, rhs_eof := d.rhs_eof || t2.eof,
            col_i := 0, row_i := d.row_i + min t1.delta t2.delta,
            buf_n := fitCap d.buf_n (max (t1.maxLen + 1) (t2.maxLen + 1)) },
   t1.eof || t2.eof)

/-- Modelled from the spec: the `%.17g` formatting of a register value into
the search tag of `ndiff_gotoNum` (ndiff.c:481).  An exact decimal
`num/den` rendering stands in for the C format; no theorem depends on the
produced text. -/
def fmt17g (x : ℚ) : List Char :=
  (toString x.num).toList ++ (if x.den = 1 then [] else '/' :: (toString x.den).toList)

/-- The per-line column search of `ndiff_gotoNum` (ndiff.c:508/544): reset
the non-searched cursor, scan for the next number, and either accept it
through `ndiff_testNum` (result 0 ends the search), or — outside the
rule's column slice — step the searched side past the parsed literal.
`side = true` searches the left stream.  Fuel-indexed. -/
def gotoNumCols (chr : List Char) (d : Ndiff) (c : Constraint) (side : Bool) :
    Nat → Option (Ndiff × Bool)
  | 0 => none
  | fuel + 1 =>
    let d0 := if side then { d with rhs_i := 0 } else { d with lhs_i := 0 }
    match ndiff_nextNum chr (d0.lhs_b.length + d0.rhs_b.length + 2) d0 c with
    | none => none
    | some (d1, col, _) =>
      if col = 0 then some (d1, false)
      else if slice_isElem c.col col then
        let r := ndiff_testNum d1 c
        if r.2.ret.isZero then some (r.1, true)
        else gotoNumCols chr r.1 c side fuel
      else if side then
        let po := parse_number d1.lhs_b d1.lhs_i
        gotoNumCols chr { d1 with lhs_b := po.buf, lhs_i := d1.lhs_i + po.len } c side fuel
      else
        let po := parse_number d1.rhs_b d1.rhs_i
        gotoNumCols chr { d1 with rhs_b := po.buf, rhs_i := d1.rhs_i + po.len } c side fuel

/-- The per-side line loop of `ndiff_gotoNum` (ndiff.c:489/525): reset the
searched buffer, stop if the previous read hit EOF, read one line,
and run the column search; stop when it accepts a match.  Returns the
state, the lines consumed and whether the search succeeded. -/
def gotoNumLines (chr : List Char) (c : Constraint) (side : Bool) :
    Nat → Ndiff → Nat → Bool → Option (Ndiff × Nat × Bool)
  | 0, _, _, _ => none
  | fuel + 1, d, i, ceof =>
    let d0 := if side then { d with lhs_i := 0, lhs_b := [] }
              else { d with rhs_i := 0, rhs_b := [] }
    if ceof then some (d0, i, false)
    else
      let f := if side then d0.lhs_f else d0.rhs_f
      let ceof1 := f.isEmpty
      let lb := f.headD []
      let d1 := if side then
          { d0 with lhs_f := f.tail, lhs_b := lb, lhs_eof := d0.lhs_eof || ceof1,
                    buf_n := fitCap d0.buf_n (lb.length + 1) }
        else
          { d0 with rhs_f := f.tail, rhs_b := lb, rhs_eof := d0.rhs_eof || ceof1,
                    buf_n := fitCap d0.buf_n (lb.length + 1) }
      match gotoNumCols chr d1 c side (d1.lhs_b.length + d1.rhs_b.length + 2) with
      | none => none
      | some (d2, found) =>
        if found then some (d2, i + 1, true)
        else gotoNumLines chr c side fuel d2 (i + 1) ceof1

/-- `ndiff_gotoNum` (ndiff.c:470): format a register as the tag if asked;
delegate to `ndiff_gotoLine` for a full-slice `equ` rule; otherwise search
each side independently for a number accepted by `ndiff_testNum` against
the tag loaded into the opposite buffer (with `swap` set for the
right-hand pass), restoring the left buffer afterwards and advancing
`row_i` by the smaller per-side line count.  The fixed size of the C tag
array is not modelled: the full left buffer is saved and restored.
Fuel-indexed; returns `true` for EOF. -/
def ndiff_gotoNum (chr : List Char) (fuel : Nat) (d : Ndiff) (c : Constraint) :
    Option (Ndiff × Bool) :=
  let tg := if c.eps.gto_reg ≠ 0 then fmt17g (reg_getval d.reg d.reg_n c.eps.gto_reg 0)
            else c.eps.tag
  let c1 : Constraint := { c with eps := { c.eps with tag := tg } }
  if c.eps.cmd.equ && slice_isFull c.col then
    some (ndiff_gotoLine d c1)
  else
    let dA := { d with rhs_b := c1.eps.tag }
    match gotoNumLines chr c1 true fuel dA 0 false with
    | none => none
    | some (dB, i1, _) =>
      let saved := dB.lhs_b
      let dC := { dB with lhs_b := c1.eps.tag }
      let c2 : Constraint := { c1 with eps := { c1.eps with cmd := { c1.eps.cmd with swap := true } } }
      match gotoNumLines chr c2 false fuel dC 0 false with
      | none => none
      | some (dD, i2, _) =>
        some ({ dD with lhs_b := saved, lhs_i := 0, rhs_i := 0, col_i := 0,
                        row_i := dD.row_i + min i1 i2 },
              dD.lhs_eof || dD.rhs_eof)

/-- The per-column inner loop of `ndiff_loop` (ndiff.c:923): scan for the
next number column, fetch the rule for it (`getInc`, with the optional
redundant `getAt` check — a mismatch is the fatal `ndiff_error`), break on
an `sgg` rule, otherwise accumulate `ndiff_testNum`.  The last component
counts the `ndiff_testNum` calls made.  Fuel-indexed. -/
def loopCols (chr : List Char) :
    Nat → Ndiff → Constraint → Nat → TestRet → Nat →
    Option (Ndiff × TestRet × Nat)
  | 0, _, _, _, _, _ => none
  | fuel + 1, d, c, row, ret, calls =>
    match ndiff_nextNum chr (d.lhs_b.length + d.rhs_b.length + 2) d c with
    | none => none
    | some (d1, col, _) =>
      if col = 0 then some (d1, ret, calls)
      else
        let c1 := d1.cxt row col
        let c2 := d1.cxt row col
        if d1.check ∧ ¬(c1 = c2) then none
        else if c1.eps.cmd.sgg then some (d1, ret, calls)
        else
          let r := ndiff_testNum d1 c1
          loopCols chr fuel r.1 c1 row (ret.or r.2.ret) (calls + 1)

/-- The bottom of one `ndiff_loop` iteration: run the inner column loop and
then the `result:` label — when the accumulated result is zero, append the
(accepted) buffers to the output line lists (`ndiff_outLine`). -/
def loopTail (chr : List Char) (d : Ndiff) (c : Constraint)
    (oL oR : List (List Char)) (calls : Nat) :
    Option (Ndiff × List (List Char) × List (List Char) × Nat) :=
  match loopCols chr (d.lhs_b.length + d.rhs_b.length + 2) d c d.row_i {} calls with
  | none => none
  | some (d2, ret, calls2) =>
    if ret.isZero then some (d2, oL ++ [(ndiff_outLine d2).1], oR ++ [(ndiff_outLine d2).2], calls2)
    else some (d2, oL, oR, calls2)

/-- The driver loop `ndiff_loop` (ndiff.c:878), fuel-indexed on the rows.
Per row: fetch the entering rule (`getInc`, with the optional `getAt`
check), dispatch `skip`/`goto`/`gonum`/read, then run the per-column inner
loop and the `result:` output step.  The trace-level juggling of
`logmsg_config` is print-only and not modelled; the final `skipSpace` on
the raw streams under `blank` repositions exhausted streams only.  The
last component of the result counts `ndiff_testNum` calls across the whole
run. -/
def loopGo (chr : List Char) :
    Nat → Ndiff → List (List Char) → List (List Char) → Nat →
    Option (Ndiff × List (List Char) × List (List Char) × Nat)
  | 0, _, _, _, _ => none
  | fuel + 1, d, oL, oR, calls =>
    if ndiff_feof d false then some (d, oL, oR, calls)
    else
      let row := d.row_i + 1
      let c := d.cxt row 0
      let c2 := d.cxt row 0
      if d.check ∧ ¬(c = c2) then none
      else if c.eps.cmd.skip then
        loopGo chr fuel (ndiff_skipLine d).1 oL oR calls
      else if c.eps.cmd.goto then
        match loopTail chr (ndiff_gotoLine d c).1 c oL oR calls with
        | none => none
        | some (d2, oL2, oR2, calls2) => loopGo chr fuel d2 oL2 oR2 calls2
      else if c.eps.cmd.gonum then
        match ndiff_gotoNum chr (d.lhs_f.length + d.rhs_f.length + 2) d c with
        | none => none
        | some (d1, _) =>
          match loopTail chr d1 c oL oR calls with
          | none => none
          | some (d2, oL2, oR2, calls2) => loopGo chr fuel d2 oL2 oR2 calls2
      else
        let d1 := (ndiff_readLine d).1
        if ndiff_isempty d1 then
          loopGo chr fuel d1 (oL ++ [(ndiff_outLine d1).1]) (oR ++ [(ndiff_outLine d1).2]) calls
        else
          match loopTail chr d1 c oL oR calls with
          | none => none
          | some (d2, oL2, oR2, calls2) => loopGo chr fuel d2 oL2 oR2 calls2

/-- `ndiff_loop` (ndiff.c:878) started on a state, with empty output line
lists and a zero call counter. -/
def ndiff_loop (chr : List Char) (fuel : Nat) (d : Ndiff) :
    Option (Ndiff × List (List Char) × List (List Char) × Nat) :=
  loopGo chr fuel d [] [] 0

/-- An empty context: every `(row, col)` yields the default rule (used for
concrete runs below). -/
def emptyCxt : Nat → Nat → Constraint := fun _ _ => {}

/-- A plain tolerance rule: no control-flow command (`skip`, `goto`,
`gonum`, `sgg`), no string modes (`istr`, `omit`, `equ`, `ign`), literal
operands (no `lhs`/`rhs` override, no register indirection), a zero offset
and bounds that straddle zero so that a zero error always passes.  The
default rule is plain. -/
def PlainRule (c : Constraint) : Prop :=
  c.eps.cmd.skip = false ∧ c.eps.cmd.goto = false ∧ c.eps.cmd.gonum = false ∧
  c.eps.cmd.sgg = false ∧ c.eps.cmd.istr = false ∧ c.eps.cmd.omitc = false ∧
  c.eps.cmd.ign = false ∧ c.eps.cmd.equ = false ∧
  c.eps.cmd.lhs = false ∧ c.eps.cmd.rhs = false ∧
  c.eps.lhs_reg = 0 ∧ c.eps.rhs_reg = 0 ∧ c.eps.scl_reg = 0 ∧
  c.eps.off_reg = 0 ∧ c.eps.abs_reg = 0 ∧ c.eps.nabs_reg = 0 ∧
  c.eps.rel_reg = 0 ∧ c.eps.nrel_reg = 0 ∧ c.eps.dig_reg = 0 ∧
  c.eps.ndig_reg = 0 ∧
  c.eps.off = 0 ∧ 0 ≤ c.eps.abs ∧ c.eps.nabs ≤ 0 ∧ 0 ≤ c.eps.rel ∧
  c.eps.nrel ≤ 0 ∧ 0 ≤ c.eps.dig ∧ c.eps.ndig ≤ 0

/-- The scenario state of C1/C4: line `"1"` against line `"2"`, cursors at
0 (both literals start the line). -/
def d12 : Ndiff := ndiff_fillLine (ndiff_alloc 99 [] [] emptyCxt 0 0) ['1'] ['2']

/-- The state of the `none violated` scenario of C4: `"1"` against `"1"`. -/
def d11 : Ndiff := ndiff_fillLine (ndiff_alloc 99 [] [] emptyCxt 0 0) ['1'] ['1']

/-- C4's rule `{any, abs, rel}` with a wide absolute bound (±10) and a
tight relative bound (±1/10): on `1` vs `2` only `rel` is violated. -/
def cAnyWide : Constraint :=
  { eps := { cmd := { abs := true, rel := true, any := true },
             abs := 10, nabs := -10, rel := 1/10, nrel := -(1/10) } }

/-- C4's rule `{any, abs, rel}` with both bounds tight (±1/2 and ±1/10):
on `1` vs `2` both axes are violated. -/
def cAnyTight : Constraint :=
  { eps := { cmd := { abs := true, rel := true, any := true },
             abs := 1/2, nabs := -(1/2), rel := 1/10, nrel := -(1/10) } }

/-- C7's rule: absolute axis only, bounds ±1/2. -/
def c7rule : Constraint :=
  { eps := { cmd := { abs := true }, abs := 1/2, nabs := -(1/2) } }

/-- C7's scenario state: lines `"a 1 b"` and `"a 2 b"` freshly loaded. -/
def d7pre : Ndiff :=
  ndiff_fillLine (ndiff_alloc 99 [] [] emptyCxt 0 0)
    ['a', ' ', '1', ' ', 'b'] ['a', ' ', '2', ' ', 'b']

/-- C7's state after `ndiff_nextNum`: both cursors on the literals at
char-column 2, numeric column 1. -/
def d7at : Ndiff := { d7pre with lhs_i := 2, rhs_i := 2, num_i := 1, col_i := 1 }

/-!  ## Theorems  -/

/-- C9: boundary behaviour of the number lexer.  `"."` alone is rejected;
`".5"` is accepted with length 2, digit count 1 and `is_real`; `"5."` is
accepted; `"1e"` is accepted as the length-1 literal `"1"` with the
exponent marker rolled back (no exponent reported) and the buffer restored
unchanged; `"1D-3"` is accepted (length 4) with the buffer rewritten in
place to `"1e-3"`. -/
theorem C9_lexer_boundaries :
    (parse_number ['.'] 0).len = 0 ∧
    (parse_number ['.', '5'] 0).len = 2 ∧
    (parse_number ['.', '5'] 0).n = 1 ∧
    (parse_number ['.', '5'] 0).f = true ∧
    (parse_number ['5', '.'] 0).len = 2 ∧
    (parse_number ['1', 'e'] 0).len = 1 ∧
    (parse_number ['1', 'e'] 0).e = -1 ∧
    (parse_number ['1', 'e'] 0).buf = ['1', 'e'] ∧
    (parse_number ['1', 'D', '-', '3'] 0).len = 4 ∧
    (parse_number ['1', 'D', '-', '3'] 0).buf = ['1', 'e', '-', '3'] := by
  decide

/-- C2: the required equality between the lexer's length and the bytes
consumed by `strtod` fails on the hexadecimal literal `"0x1A"`, which is
reachable through `ndiff_nextNum`: on the line pair `"0x1A"`|`"0x1A"` the
scanner returns column 1 with both cursors at 0, the lexer accepts a
length-1 literal (the leading `0`), and `strtod` consumes 4 bytes, so the
assert `lhs_p + l1 == end` of `ndiff_testNum` (ndiff.c:689) fails. -/
theorem C2_strtod_hex_mismatch :
    (ndiff_nextNum [] 8
        (ndiff_fillLine (ndiff_alloc 99 [] [] emptyCxt 0 0)
          ['0', 'x', '1', 'A'] ['0', 'x', '1', 'A']) {}).map
        (fun r => (r.1.lhs_i, r.1.rhs_i, r.2.1, r.2.2)) =
      some (0, 0, 1, ScanExit.found) ∧
    (parse_number ['0', 'x', '1', 'A'] 0).len = 1 ∧
    (strtod ['0', 'x', '1', 'A'] 0).2 = 4 ∧
    (parse_number ['0', 'x', '1', 'A'] 0).len ≠ (strtod ['0', 'x', '1', 'A'] 0).2 := by
  refine ⟨?_, by decide, by decide, by decide⟩
  decide

/-- C10: `ndiff_alloc` yields buffer capacity `max n 65536`, empty buffers,
register count `r` clamped into `[99, REG_MAX]`, and zeroed registers;
`ndiff_clear` re-establishes that postcondition with the previously clamped
register count and the minimum capacity 65536. -/
theorem C10_alloc_clear (lf rf : List (List Char)) (cxt : Nat → Nat → Constraint)
    (n r regMax : Nat) (h : 99 ≤ regMax) :
    (ndiff_alloc regMax lf rf cxt n r).buf_n = max n 65536 ∧
    (ndiff_alloc regMax lf rf cxt n r).lhs_b = [] ∧
    (ndiff_alloc regMax lf rf cxt n r).rhs_b = [] ∧
    (ndiff_alloc regMax lf rf cxt n r).reg_n = min (max r 99) regMax ∧
    (ndiff_alloc regMax lf rf cxt n r).reg = (fun _ => 0) ∧
    (ndiff_clear regMax (ndiff_alloc regMax lf rf cxt n r)).buf_n = 65536 ∧
    (ndiff_clear regMax (ndiff_alloc regMax lf rf cxt n r)).lhs_b = [] ∧
    (ndiff_clear regMax (ndiff_alloc regMax lf rf cxt n r)).rhs_b = [] ∧
    (ndiff_clear regMax (ndiff_alloc regMax lf rf cxt n r)).reg_n =
      (ndiff_alloc regMax lf rf cxt n r).reg_n ∧
    (ndiff_clear regMax (ndiff_alloc regMax lf rf cxt n r)).reg = (fun _ => 0) := by
  simp only [ndiff_alloc, ndiff_setup, ndiff_clear, ndiff_teardown]
  split_ifs <;> simp_all <;> omega

/-- Witness for C10 at `n = 5`, `r = 120`, `REG_MAX = 99`. -/
theorem C10_alloc_clear_witness :
    (ndiff_alloc 99 [] [] emptyCxt 5 120).buf_n = max 5 65536 ∧
    (ndiff_alloc 99 [] [] emptyCxt 5 120).lhs_b = [] ∧
    (ndiff_alloc 99 [] [] emptyCxt 5 120).rhs_b = [] ∧
    (ndiff_alloc 99 [] [] emptyCxt 5 120).reg_n = min (max 120 99) 99 ∧
    (ndiff_alloc 99 [] [] emptyCxt 5 120).reg = (fun _ => 0) ∧
    (ndiff_clear 99 (ndiff_alloc 99 [] [] emptyCxt 5 120)).buf_n = 65536 ∧
    (ndiff_clear 99 (ndiff_alloc 99 [] [] emptyCxt 5 120)).lhs_b = [] ∧
    (ndiff_clear 99 (ndiff_alloc 99 [] [] emptyCxt 5 120)).rhs_b = [] ∧
    (ndiff_clear 99 (ndiff_alloc 99 [] [] emptyCxt 5 120)).reg_n =
      (ndiff_alloc 99 [] [] emptyCxt 5 120).reg_n ∧
    (ndiff_clear 99 (ndiff_alloc 99 [] [] emptyCxt 5 120)).reg = (fun _ => 0) :=
  C10_alloc_clear [] [] emptyCxt 5 120 99 (by decide)

/-- C5 counterexample: the claim says the options set via `ndiff_option`
(`max_diffs` among them) keep their values across `ndiff_clear`; but
`ndiff_teardown`'s compound literal does not list `max_i`, so a `max_diffs`
of 5 becomes 0 after `ndiff_clear`. -/
theorem C5_clear_loses_max_cex :
    (ndiff_clear 99
        (ndiff_option (ndiff_alloc 99 [] [] emptyCxt 0 0)
          (some 5) (some true) (some true))).max_i = 0 ∧
    (ndiff_option (ndiff_alloc 99 [] [] emptyCxt 0 0)
        (some 5) (some true) (some true)).max_i = 5 ∧
    (0 : Nat) ≠ 5 := by
  refine ⟨?_, by decide, by decide⟩
  decide

/-- C5 as amended: `ndiff_clear` resets all state — counters, cursors,
buffers, registers, row/column/number counts, capacity — except the two
stream handles (their end-of-file state included), the context reference,
and the options `blank` and `check`; the register count is also kept; but
`max_diffs` does NOT survive: it is reset to 0 (the `ndiff_teardown` half
of `clear` drops it). -/
theorem C5_clear_frame (d : Ndiff) (regMax : Nat)
    (h1 : 99 ≤ d.reg_n) (h2 : d.reg_n ≤ regMax) :
    (ndiff_clear regMax d).lhs_f = d.lhs_f ∧
    (ndiff_clear regMax d).rhs_f = d.rhs_f ∧
    (ndiff_clear regMax d).lhs_eof = d.lhs_eof ∧
    (ndiff_clear regMax d).rhs_eof = d.rhs_eof ∧
    (ndiff_clear regMax d).cxt = d.cxt ∧
    (ndiff_clear regMax d).blank = d.blank ∧
    (ndiff_clear regMax d).check = d.check ∧
    (ndiff_clear regMax d).reg_n = d.reg_n ∧
    (ndiff_clear regMax d).max_i = 0 ∧
    (ndiff_clear regMax d).row_i = 0 ∧
    (ndiff_clear regMax d).col_i = 0 ∧
    (ndiff_clear regMax d).cnt_i = 0 ∧
    (ndiff_clear regMax d).num_i = 0 ∧
    (ndiff_clear regMax d).lhs_i = 0 ∧
    (ndiff_clear regMax d).rhs_i = 0 ∧
    (ndiff_clear regMax d).lhs_b = [] ∧
    (ndiff_clear regMax d).rhs_b = [] ∧
    (ndiff_clear regMax d).buf_n = 65536 ∧
    (ndiff_clear regMax d).reg = (fun _ => 0) := by
  simp only [ndiff_clear, ndiff_setup, ndiff_teardown]
  split_ifs <;> simp_all <;> omega

/-- Witness for C5 at a concrete state with nontrivial stream, option and
register-count values. -/
theorem C5_clear_frame_witness :
    (ndiff_clear 200
        (ndiff_option (ndiff_alloc 200 [['a']] [['b']] emptyCxt 0 150)
          (some 7) (some true) (some true))).reg_n =
      (ndiff_option (ndiff_alloc 200 [['a']] [['b']] emptyCxt 0 150)
          (some 7) (some true) (some true)).reg_n ∧
    (ndiff_clear 200
        (ndiff_option (ndiff_alloc 200 [['a']] [['b']] emptyCxt 0 150)
          (some 7) (some true) (some true))).max_i = 0 ∧
    (ndiff_clear 200
        (ndiff_option (ndiff_alloc 200 [['a']] [['b']] emptyCxt 0 150)
          (some 7) (some true) (some true))).blank = true := by
  have h := C5_clear_frame
    (ndiff_option (ndiff_alloc 200 [['a']] [['b']] emptyCxt 0 150)
      (some 7) (some true) (some true)) 200 (by decide) (by decide)
  exact ⟨h.2.2.2.2.2.2.2.1, h.2.2.2.2.2.2.2.2.1,
    h.2.2.2.2.2.1.trans (by decide)⟩

theorem reg_getval_zero (g : Nat → ℚ) (n : Nat) (v : ℚ) :
    reg_getval g n 0 v = v := by
  simp [reg_getval]

/-- Symbolic evaluation of `ndiff_testNum` for a rule without register
indirection and without the `ign`/`omit`/`equ`/`lhs`/`rhs` short-circuits:
both literals parse, the scalars come from the rule, the error formulas and
the three axis checks are as in the code (including the as-written swap
effect `rhs_d := lhs_d` and the any-mode collapse), and the matching
`quit`/`quit_diff` epilogue is applied. -/
theorem testNum_axis_eval (d : Ndiff) (c : Constraint)
    (hign : c.eps.cmd.ign = false) (homit : c.eps.cmd.omitc = false)
    (hequ : c.eps.cmd.equ = false)
    (hlf : c.eps.cmd.lhs = false) (hrf : c.eps.cmd.rhs = false)
    (hg1 : c.eps.lhs_reg = 0) (hg2 : c.eps.rhs_reg = 0)
    (hg3 : c.eps.scl_reg = 0) (hg4 : c.eps.off_reg = 0)
    (hg5 : c.eps.abs_reg = 0) (hg6 : c.eps.nabs_reg = 0)
    (hg7 : c.eps.rel_reg = 0) (hg8 : c.eps.nrel_reg = 0)
    (hg9 : c.eps.dig_reg = 0) (hg10 : c.eps.ndig_reg = 0)
    (hl1 : (parse_number d.lhs_b d.lhs_i).len ≠ 0)
    (hl2 : (parse_number d.rhs_b d.rhs_i).len ≠ 0) :
    ndiff_testNum d c =
      (let po1 := parse_number d.lhs_b d.lhs_i
       let po2 := parse_number d.rhs_b d.rhs_i
       let d1 := { d with lhs_b := po1.buf, rhs_b := po2.buf }
       let v1 := (strtod po1.buf d.lhs_i).1
       let v2 := (strtod po2.buf d.rhs_i).1
       let min0 := min |v1| |v2|
       let min_d := if ¬(min0 > 0) then 1 else min0
       let w2 := if c.eps.cmd.swap then v1 else v2
       let dif := v1 - w2
       let err := c.eps.scl * dif
       let ab := err + c.eps.off
       let re := ab / min_d
       let pw := pow10m (max po1.n po2.n)
       let dg := ab / (min_d * pw)
       let rA := c.eps.cmd.abs && decide (ab > c.eps.abs ∨ ab < c.eps.nabs)
       let rR := c.eps.cmd.rel && decide (re > c.eps.rel ∨ re < c.eps.nrel)
       let rD := (c.eps.cmd.dig && (po1.f || po2.f)) &&
                 decide (dg > c.eps.dig ∨ dg < c.eps.ndig)
       let ret : TestRet :=
         if c.eps.cmd.any &&
            !(decide (rA = c.eps.cmd.abs ∧ rR = c.eps.cmd.rel ∧ rD = c.eps.cmd.dig)) then {}
         else { abs := rA, rel := rR, dig := rD }
       let o : TestOut := { ret := ret, l1 := po1.len, l2 := po2.len,
                            lhs_d := v1, rhs_d := w2, dif_d := dif,
                            err_d := err, abs_d := ab, rel_d := re,
                            dig_d := dg, min_d := min_d, pow_d := pw }
       if ret.isZero then testNumQuit d1 c o
       else testNumQuit (testNumDiffHit d1 c) c o) := by
  simp only [ndiff_testNum, hign, homit, hequ, hlf, hrf,
    hg1, hg2, hg3, hg4, hg5, hg6, hg7, hg8, hg9, hg10,
    reg_getval_zero, hl1, hl2, or_self, if_false, Bool.false_and,
    if_neg (by simp [hl1, hl2] : ¬((parse_number d.lhs_b d.lhs_i).len = 0 ∨
      (parse_number d.rhs_b d.rhs_i).len = 0)),
    ne_eq, not_true_eq_false, false_and, Bool.false_eq_true, ite_false]

/-- C1: on the swap path of `ndiff_testNum` the source does not exchange
`lhs_d` and `rhs_d`: the middle statement of
`tmp = lhs_d; lhd_d = rhs_d; rhs_d = tmp;` (ndiff.c:701) assigns to the
undeclared `lhd_d` (the file does not even compile), so as written the
pair `(1, 2)` becomes `(1, 1)` and `dif = lhs − rhs` is 0 (register 3
receives 0 on the save), where the exchange the spec intends would give
the pair `(2, 1)` and `dif = 2 − 1 = 1 ≠ 0`. -/
theorem C1_swap_not_exchanged :
    ((ndiff_testNum
        (ndiff_fillLine (ndiff_alloc 99 [] [] emptyCxt 0 0) ['1'] ['2'])
        { eps := { cmd := { swap := true } } }).2.lhs_d,
     (ndiff_testNum
        (ndiff_fillLine (ndiff_alloc 99 [] [] emptyCxt 0 0) ['1'] ['2'])
        { eps := { cmd := { swap := true } } }).2.rhs_d,
     (ndiff_testNum
        (ndiff_fillLine (ndiff_alloc 99 [] [] emptyCxt 0 0) ['1'] ['2'])
        { eps := { cmd := { swap := true } } }).2.dif_d,
     (ndiff_testNum
        (ndiff_fillLine (ndiff_alloc 99 [] [] emptyCxt 0 0) ['1'] ['2'])
        { eps := { cmd := { swap := true } } }).1.reg 3) = (1, 1, 0, 0) ∧
    ¬((1 : ℚ) = 2 ∧ (1 : ℚ) = 1) ∧
    (2 : ℚ) - 1 = 1 ∧ (0 : ℚ) ≠ 1 := by
  have hp1 : parse_number ['1'] 0 = ⟨1, -1, 1, -1, false, ['1']⟩ := by decide
  have hp2 : parse_number ['2'] 0 = ⟨1, -1, 1, -1, false, ['2']⟩ := by decide
  have hs1 : (strtod ['1'] 0).1 = 1 := by
    simp +decide [strtod, strtodList, decValAux, chAt, isDigitC]
  have hs2 : (strtod ['2'] 0).1 = 2 := by
    simp +decide [strtod, strtodList, decValAux, chAt, isDigitC]
  refine ⟨?_, by norm_num, by norm_num, by norm_num⟩
  rw [testNum_axis_eval _ _ rfl rfl rfl rfl rfl rfl rfl rfl rfl rfl rfl rfl
      rfl rfl rfl (by decide) (by decide)]
  show _ = ((1 : ℚ), (1 : ℚ), (0 : ℚ), (0 : ℚ))
  norm_num [show (ndiff_fillLine (ndiff_alloc 99 [] [] emptyCxt 0 0) ['1'] ['2']).lhs_b
        = ['1'] from rfl,
    show (ndiff_fillLine (ndiff_alloc 99 [] [] emptyCxt 0 0) ['1'] ['2']).rhs_b
        = ['2'] from rfl,
    show (ndiff_fillLine (ndiff_alloc 99 [] [] emptyCxt 0 0) ['1'] ['2']).lhs_i
        = 0 from rfl,
    show (ndiff_fillLine (ndiff_alloc 99 [] [] emptyCxt 0 0) ['1'] ['2']).rhs_i
        = 0 from rfl,
    hp1, hp2, hs1, hs2, testNumQuit, testNumDiffHit, TestRet.isZero,
    reg_setval, pow10m,
    show (ndiff_fillLine (ndiff_alloc 99 [] [] emptyCxt 0 0) ['1'] ['2']).reg_n
        = 99 from rfl,
    show (ndiff_fillLine (ndiff_alloc 99 [] [] emptyCxt 0 0) ['1'] ['2']).reg
        = (fun _ => 0) from rfl]

/-- C4 counterexample: under the rule `{any, abs, rel}` with `rel` violated
and `abs` satisfied (lines `"1"` vs `"2"`, abs bound ±10, rel bound ±1/10),
`ndiff_testNum` returns the ZERO bitmask and does not count a difference —
the any-mode collapse (ndiff.c:760) clears `ret` because the violated axes
`{rel}` differ from the enabled axes `{abs, rel}` — where the claim says a
difference is reported. -/
theorem C4_rel_only_silent_cex :
    ((ndiff_testNum d12 cAnyWide).2.ret, (ndiff_testNum d12 cAnyWide).1.cnt_i) =
      ({}, 0) ∧
    TestRet.isZero {} = true := by
  have hp1 : parse_number ['1'] 0 = ⟨1, -1, 1, -1, false, ['1']⟩ := by decide
  have hp2 : parse_number ['2'] 0 = ⟨1, -1, 1, -1, false, ['2']⟩ := by decide
  have hs1 : (strtod ['1'] 0).1 = 1 := by
    simp +decide [strtod, strtodList, decValAux, chAt, isDigitC]
  have hs2 : (strtod ['2'] 0).1 = 2 := by
    simp +decide [strtod, strtodList, decValAux, chAt, isDigitC]
  refine ⟨?_, by decide⟩
  rw [testNum_axis_eval _ _ rfl rfl rfl rfl rfl rfl rfl rfl rfl rfl rfl rfl
      rfl rfl rfl (by decide) (by decide)]
  norm_num [show d12.lhs_b = ['1'] from rfl, show d12.rhs_b = ['2'] from rfl,
    show d12.lhs_i = 0 from rfl, show d12.rhs_i = 0 from rfl,
    show d12.cnt_i = 0 from rfl,
    hp1, hp2, hs1, hs2, testNumQuit, testNumDiffHit, TestRet.isZero,
    reg_setval, pow10m, cAnyWide]

/-- C4 as amended: under a rule `{any, abs, rel}` the code reports a
difference only when the violated axes are exactly the enabled ones: with
only `rel` violated `ret` is CLEARED (nothing reported, `cnt_i` stays 0);
with both `abs` and `rel` violated the difference is reported (`cnt_i`
incremented, bitmask nonzero); with no axis violated nothing is
reported. -/
theorem C4_any_exact_match_eval :
    ((ndiff_testNum d12 cAnyWide).2.ret, (ndiff_testNum d12 cAnyWide).1.cnt_i) =
      ({}, 0) ∧
    ((ndiff_testNum d12 cAnyTight).2.ret, (ndiff_testNum d12 cAnyTight).1.cnt_i) =
      ({ abs := true, rel := true }, 1) ∧
    TestRet.isZero { abs := true, rel := true } = false ∧
    ((ndiff_testNum d11 cAnyWide).2.ret, (ndiff_testNum d11 cAnyWide).1.cnt_i) =
      ({}, 0) := by
  have hp1 : parse_number ['1'] 0 = ⟨1, -1, 1, -1, false, ['1']⟩ := by decide
  have hp2 : parse_number ['2'] 0 = ⟨1, -1, 1, -1, false, ['2']⟩ := by decide
  have hs1 : (strtod ['1'] 0).1 = 1 := by
    simp +decide [strtod, strtodList, decValAux, chAt, isDigitC]
  have hs2 : (strtod ['2'] 0).1 = 2 := by
    simp +decide [strtod, strtodList, decValAux, chAt, isDigitC]
  refine ⟨?_, ?_, by decide, ?_⟩
  · rw [testNum_axis_eval _ _ rfl rfl rfl rfl rfl rfl rfl rfl rfl rfl rfl rfl
        rfl rfl rfl (by decide) (by decide)]
    norm_num [show d12.lhs_b = ['1'] from rfl, show d12.rhs_b = ['2'] from rfl,
      show d12.lhs_i = 0 from rfl, show d12.rhs_i = 0 from rfl,
      show d12.cnt_i = 0 from rfl,
      hp1, hp2, hs1, hs2, testNumQuit, testNumDiffHit, TestRet.isZero,
      reg_setval, pow10m, cAnyWide]
  · rw [testNum_axis_eval _ _ rfl rfl rfl rfl rfl rfl rfl rfl rfl rfl rfl rfl
        rfl rfl rfl (by decide) (by decide)]
    norm_num [show d12.lhs_b = ['1'] from rfl, show d12.rhs_b = ['2'] from rfl,
      show d12.lhs_i = 0 from rfl, show d12.rhs_i = 0 from rfl,
      show d12.cnt_i = 0 from rfl,
      hp1, hp2, hs1, hs2, testNumQuit, testNumDiffHit, TestRet.isZero,
      reg_setval, pow10m, cAnyTight]
  · rw [testNum_axis_eval _ _ rfl rfl rfl rfl rfl rfl rfl rfl rfl rfl rfl rfl
        rfl rfl rfl (by decide) (by decide)]
    norm_num [show d11.lhs_b = ['1'] from rfl, show d11.rhs_b = ['1'] from rfl,
      show d11.lhs_i = 0 from rfl, show d11.rhs_i = 0 from rfl,
      show d11.cnt_i = 0 from rfl,
      hp1, hs1, testNumQuit, testNumDiffHit, TestRet.isZero,
      reg_setval, pow10m, cAnyWide]

/-- Adding the run length of a dropped tail never leaves the buffer, as
long as the run is bounded by the tail's length. -/
theorem pos_add_run_le {b : List Char} {p k : Nat} (hp : p ≤ b.length)
    (hk : k ≤ (b.drop p).length) : p + k ≤ b.length := by
  simp only [List.length_drop] at hk
  omega

theorem isDigitC_ne_chars {c : Char} (h : isDigitC c = true) :
    c ≠ '-' ∧ c ≠ '+' ∧ c ≠ '.' ∧ c ≠ ' ' ∧ c ≠ nulChar ∧ c ≠ '\t' := by
  refine ⟨?_, ?_, ?_, ?_, ?_, ?_⟩ <;>
    exact fun he => by rw [he] at h; exact absurd h (by decide)

theorem isDigitC_not_blank {c : Char} (h : isDigitC c = true) :
    isBlankC c = false := by
  obtain ⟨-, -, -, h4, -, h6⟩ := isDigitC_ne_chars h
  simp [isBlankC, h4, h6]

theorem isDigitC_toNat {c : Char} (h : isDigitC c = true) :
    48 ≤ c.toNat ∧ c.toNat ≤ 57 := by
  simp only [isDigitC, Bool.and_eq_true, decide_eq_true_eq] at h
  obtain ⟨h1, h2⟩ := h
  rw [Char.le_def] at h1 h2
  exact ⟨h1, h2⟩

theorem isDigitC_not_sep (chr : List Char) {c : Char} (h : isDigitC c = true) :
    is_separator chr c = false := by
  obtain ⟨hn, ht⟩ := isDigitC_toNat h
  obtain ⟨-, -, -, h4, h5, h6⟩ := isDigitC_ne_chars h
  have hp : isPunctC c = false := by
    simp only [isPunctC, Bool.or_eq_false_iff, Bool.and_eq_false_iff,
      decide_eq_false_iff_not, not_le]
    omega
  simp [is_separator, h5, isBlankC, h4, h6, hp]

theorem zerosRun_le : ∀ l : List Char, zerosRun l ≤ l.length
  | [] => by simp [zerosRun]
  | c :: r => by
    simp only [zerosRun, List.length_cons]
    split
    · exact Nat.succ_le_succ (zerosRun_le r)
    · omega

theorem digitsRun_le : ∀ l : List Char, digitsRun l ≤ l.length
  | [] => by simp [digitsRun]
  | c :: r => by
    simp only [digitsRun, List.length_cons]
    split
    · exact Nat.succ_le_succ (digitsRun_le r)
    · omega

theorem zerosRun_stop : ∀ l : List Char, l.getD (zerosRun l) nulChar ≠ '0'
  | [] => by simp [zerosRun]; decide
  | c :: r => by
    by_cases h : c = '0'
    · simpa [zerosRun, h] using zerosRun_stop r
    · simp [zerosRun, h]

theorem digitsRun_stop : ∀ l : List Char,
    isDigitC (l.getD (digitsRun l) nulChar) = false
  | [] => by simp [digitsRun]; decide
  | c :: r => by
    by_cases h : isDigitC c = true
    · simpa [digitsRun, h] using digitsRun_stop r
    · simp only [digitsRun, h, if_false]
      simpa using h

theorem zerosRun_last : ∀ l : List Char, 0 < zerosRun l →
    l.getD (zerosRun l - 1) nulChar = '0'
  | [] => by simp [zerosRun]
  | c :: r => by
    by_cases h : c = '0'
    · intro _
      rw [show zerosRun (c :: r) = zerosRun r + 1 by simp [zerosRun, h],
        Nat.add_sub_cancel]
      by_cases hr : 0 < zerosRun r
      · rw [show zerosRun r = (zerosRun r - 1) + 1 by omega, List.getD_cons_succ]
        exact zerosRun_last r hr
      · have hz : zerosRun r = 0 := Nat.eq_zero_of_not_pos hr
        simp [hz, h]
    · simp [zerosRun, h]

theorem digitsRun_last : ∀ l : List Char, 0 < digitsRun l →
    isDigitC (l.getD (digitsRun l - 1) nulChar) = true
  | [] => by simp [digitsRun]
  | c :: r => by
    by_cases h : isDigitC c = true
    · intro _
      rw [show digitsRun (c :: r) = digitsRun r + 1 by simp [digitsRun, h],
        Nat.add_sub_cancel]
      by_cases hr : 0 < digitsRun r
      · rw [show digitsRun r = (digitsRun r - 1) + 1 by omega, List.getD_cons_succ]
        exact digitsRun_last r hr
      · have hz : digitsRun r = 0 := Nat.eq_zero_of_not_pos hr
        simp [hz, h]
    · simp [digitsRun, h]

theorem chAt_drop (b : List Char) (p k : Nat) :
    chAt (b.drop p) k = chAt b (p + k) := by
  simp [chAt, List.getD, List.getElem?_drop]

theorem skipZeros_ge (b : List Char) (i : Nat) : i ≤ skipZeros b i :=
  Nat.le_add_right _ _

theorem skipDigits_ge (b : List Char) (i : Nat) : i ≤ skipDigits b i :=
  Nat.le_add_right _ _

theorem skipZeros_le {b : List Char} {i : Nat} (h : i ≤ b.length) :
    skipZeros b i ≤ b.length :=
  pos_add_run_le h (by simpa using zerosRun_le (b.drop i))

theorem skipDigits_le {b : List Char} {i : Nat} (h : i ≤ b.length) :
    skipDigits b i ≤ b.length :=
  pos_add_run_le h (by simpa using digitsRun_le (b.drop i))

theorem skipZeros_stop (b : List Char) (i : Nat) :
    chAt b (skipZeros b i) ≠ '0' := by
  have := zerosRun_stop (b.drop i)
  rw [show (b.drop i).getD (zerosRun (b.drop i)) nulChar
      = chAt (b.drop i) (zerosRun (b.drop i)) from rfl, chAt_drop] at this
  exact this

theorem skipDigits_stop (b : List Char) (i : Nat) :
    isDigitC (chAt b (skipDigits b i)) = false := by
  have := digitsRun_stop (b.drop i)
  rw [show (b.drop i).getD (digitsRun (b.drop i)) nulChar
      = chAt (b.drop i) (digitsRun (b.drop i)) from rfl, chAt_drop] at this
  exact this

theorem skipZeros_eq {b : List Char} {i : Nat} (h : chAt b i ≠ '0') :
    skipZeros b i = i := by
  unfold skipZeros
  have hz : zerosRun (b.drop i) = 0 := by
    rcases hd : b.drop i with _ | ⟨c, r⟩
    · simp [zerosRun]
    · have hc : chAt b i = c := by
        have h0 : chAt b (i + 0) = chAt (b.drop i) 0 := (chAt_drop b i 0).symm
        rw [hd] at h0
        simpa [chAt] using h0
      rw [hc] at h
      simp [zerosRun, h]
  omega

theorem skipDigits_eq {b : List Char} {i : Nat} (h : isDigitC (chAt b i) = false) :
    skipDigits b i = i := by
  unfold skipDigits
  have hz : digitsRun (b.drop i) = 0 := by
    rcases hd : b.drop i with _ | ⟨c, r⟩
    · simp [digitsRun]
    · have hc : chAt b i = c := by
        have h0 : chAt b (i + 0) = chAt (b.drop i) 0 := (chAt_drop b i 0).symm
        rw [hd] at h0
        simpa [chAt] using h0
      rw [hc] at h
      simp [digitsRun, h]
  omega

theorem skipZeros_gt {b : List Char} {i : Nat} (h : chAt b i = '0') :
    i + 1 ≤ skipZeros b i := by
  unfold skipZeros
  have hlt : i < b.length := by
    apply lt_length_of_chAt_ne
    rw [h]
    decide
  have hd : b.drop i = chAt b i :: b.drop (i + 1) := by
    rw [show chAt b i = b[i] from by
      simp [chAt, List.getD, List.getElem?_eq_getElem hlt]]
    exact (List.getElem_cons_drop b i hlt).symm
  rw [hd, h]
  simp [zerosRun]

theorem skipDigits_gt {b : List Char} {i : Nat} (h : isDigitC (chAt b i) = true) :
    i + 1 ≤ skipDigits b i := by
  unfold skipDigits
  have hlt : i < b.length := by
    apply lt_length_of_chAt_ne
    intro hn
    rw [hn] at h
    exact absurd h (by decide)
  have hd : b.drop i = chAt b i :: b.drop (i + 1) := by
    rw [show chAt b i = b[i] from by
      simp [chAt, List.getD, List.getElem?_eq_getElem hlt]]
    exact (List.getElem_cons_drop b i hlt).symm
  rw [hd]
  simp [digitsRun, h]

theorem skipZeros_last {b : List Char} {i : Nat} (h : i < skipZeros b i) :
    chAt b (skipZeros b i - 1) = '0' := by
  unfold skipZeros at h ⊢
  have hw := zerosRun_last (b.drop i) (by omega)
  rw [show (b.drop i).getD (zerosRun (b.drop i) - 1) nulChar
      = chAt (b.drop i) (zerosRun (b.drop i) - 1) from rfl, chAt_drop] at hw
  rw [show i + zerosRun (b.drop i) - 1 = i + (zerosRun (b.drop i) - 1) by omega]
  exact hw

theorem skipDigits_last {b : List Char} {i : Nat} (h : i < skipDigits b i) :
    isDigitC (chAt b (skipDigits b i - 1)) = true := by
  unfold skipDigits at h ⊢
  have hw := digitsRun_last (b.drop i) (by omega)
  rw [show (b.drop i).getD (digitsRun (b.drop i) - 1) nulChar
      = chAt (b.drop i) (digitsRun (b.drop i) - 1) from rfl, chAt_drop] at hw
  rw [show i + digitsRun (b.drop i) - 1 = i + (digitsRun (b.drop i) - 1) by omega]
  exact hw

/-- The zeros-then-digits chain started on a digit moves past it. -/
theorem chain_gt {b : List Char} {j : Nat} (h : isDigitC (chAt b j) = true) :
    j + 1 ≤ skipDigits b (skipZeros b j) := by
  by_cases hz : chAt b j = '0'
  · exact le_trans (skipZeros_gt hz) (skipDigits_ge _ _)
  · rw [skipZeros_eq hz]
    exact skipDigits_gt h

/-- The byte just before the end of an advancing zeros-then-digits chain is
a digit. -/
theorem chain_last {b : List Char} {i : Nat}
    (h : i < skipDigits b (skipZeros b i)) :
    isDigitC (chAt b (skipDigits b (skipZeros b i) - 1)) = true := by
  by_cases hz : skipZeros b i < skipDigits b (skipZeros b i)
  · exact skipDigits_last hz
  · have he : skipDigits b (skipZeros b i) = skipZeros b i :=
      le_antisymm (Nat.le_of_not_lt hz) (skipDigits_ge _ _)
    rw [he] at h ⊢
    rw [skipZeros_last h]
    decide

theorem sign_lt_length {b : List Char} {p : Nat}
    (hs : chAt b p = '-' ∨ chAt b p = '+') : p < b.length := by
  apply lt_length_of_chAt_ne
  rcases hs with h | h <;> (rw [h]; decide)

theorem pn_i0_le_i1 (b : List Char) (p : Nat) : pn_i0 b p ≤ pn_i1 b p := by
  unfold pn_i1
  have := skipZeros_ge b (p + pn_i0 b p)
  omega

theorem pn_i1_le_i2 (b : List Char) (p : Nat) : pn_i1 b p ≤ pn_i2 b p := by
  unfold pn_i2
  have := skipDigits_ge b (p + pn_i1 b p)
  omega

theorem pn_i2_le_i3 (b : List Char) (p : Nat) : pn_i2 b p ≤ pn_i3 b p := by
  unfold pn_i3
  split <;> omega

theorem pn_i3_le_i3a (b : List Char) (p : Nat) : pn_i3 b p ≤ pn_i3a b p := by
  unfold pn_i3a
  split
  · have := skipZeros_ge b (p + pn_i3 b p)
    omega
  · exact le_refl _

theorem pn_i3a_le_i4 (b : List Char) (p : Nat) : pn_i3a b p ≤ pn_i4 b p := by
  unfold pn_i4
  split
  · have := skipDigits_ge b (p + pn_i3a b p)
    omega
  · next hdot =>
    have h3a : pn_i3a b p = pn_i3 b p := by
      unfold pn_i3a
      rw [if_neg (by simp only [Bool.and_eq_true]; exact fun hc => hdot hc.1)]
    omega

/-- The endpoint of the integer-part scan, as an absolute position. -/
theorem pn_i1_abs (b : List Char) (p : Nat) :
    p + pn_i1 b p = skipZeros b (p + pn_i0 b p) := by
  unfold pn_i1
  have := skipZeros_ge b (p + pn_i0 b p)
  omega

theorem pn_i2_abs (b : List Char) (p : Nat) :
    p + pn_i2 b p = skipDigits b (p + pn_i1 b p) := by
  unfold pn_i2
  have := skipDigits_ge b (p + pn_i1 b p)
  omega

/-- When the integer part advanced past the sign, its last byte is a
digit. -/
theorem int_part_last {b : List Char} {p : Nat}
    (h : pn_i0 b p < pn_i2 b p) :
    isDigitC (chAt b (p + pn_i2 b p - 1)) = true := by
  have hA1 := pn_i1_abs b p
  have hA2 := pn_i2_abs b p
  have hg1 := skipZeros_ge b (p + pn_i0 b p)
  have hg2 := skipDigits_ge b (p + pn_i1 b p)
  by_cases hd2 : pn_i1 b p < pn_i2 b p
  · have hlt : p + pn_i1 b p < skipDigits b (p + pn_i1 b p) := by omega
    have hw := skipDigits_last hlt
    rw [← hA2] at hw
    exact hw
  · have he : pn_i2 b p = pn_i1 b p := by omega
    have hlt : p + pn_i0 b p < skipZeros b (p + pn_i0 b p) := by omega
    have hz := skipZeros_last hlt
    rw [← hA1] at hz
    rw [he, hz]
    decide

/-- The acceptance check of `parse_number` holds whenever a digit (or a
leading zero) was scanned: either the integer part advanced past the sign
or the decimals advanced past the dot. -/
theorem pn_valid_of_digit {b : List Char} {p : Nat}
    (h : pn_i0 b p < pn_i2 b p ∨ pn_i3 b p < pn_i4 b p) : pn_valid b p := by
  have h34 := pn_i3_le_i3a b p
  have h45 := pn_i3a_le_i4 b p
  by_cases hdot : pn_hasDot b p = true
  · have h3 : pn_i3 b p = pn_i2 b p + 1 := by
      unfold pn_i3
      rw [if_pos hdot]
    by_cases h4 : pn_i3 b p < pn_i4 b p
    · refine ⟨by omega, Or.inl ?_⟩
      have hA4 : p + pn_i4 b p = skipDigits b (p + pn_i3a b p) := by
        unfold pn_i4
        rw [if_pos hdot]
        have := skipDigits_ge b (p + pn_i3a b p)
        omega
      by_cases h5 : pn_i3a b p < pn_i4 b p
      · have hlt : p + pn_i3a b p < skipDigits b (p + pn_i3a b p) := by omega
        have hw := skipDigits_last hlt
        rw [← hA4] at hw
        exact hw
      · have h6 : pn_i3 b p < pn_i3a b p := by omega
        have hd3a : pn_i3a b p = pn_i3 b p ∨
            p + pn_i3a b p = skipZeros b (p + pn_i3 b p) := by
          unfold pn_i3a
          split
          · right
            have := skipZeros_ge b (p + pn_i3 b p)
            omega
          · left
            rfl
        rcases hd3a with he | hA3a
        · omega
        · have hlt : p + pn_i3 b p < skipZeros b (p + pn_i3 b p) := by omega
          have hz := skipZeros_last hlt
          rw [← hA3a] at hz
          have he : pn_i4 b p = pn_i3a b p := by omega
          rw [he, hz]
          decide
    · have h02 : pn_i0 b p < pn_i2 b p := by
        rcases h with h | h
        · exact h
        · omega
      refine ⟨by omega, Or.inr ⟨by omega, ?_⟩⟩
      have hw := int_part_last h02
      rw [show p + pn_i4 b p - 2 = p + pn_i2 b p - 1 by omega]
      exact hw
  · have h3 : pn_i3 b p = pn_i2 b p := by
      unfold pn_i3
      rw [if_neg hdot]
    have he4 : pn_i4 b p = pn_i3 b p := by
      unfold pn_i4
      rw [if_neg hdot]
    have h02 : pn_i0 b p < pn_i2 b p := by
      rcases h with h | h
      · exact h
      · omega
    refine ⟨by omega, Or.inl ?_⟩
    have hw := int_part_last h02
    rw [show p + pn_i4 b p - 1 = p + pn_i2 b p - 1 by omega]
    exact hw

/-- The whole mantissa scan stays within the buffer. -/
theorem pn_i4_le {b : List Char} {p : Nat} (hp : p ≤ b.length) :
    p + pn_i4 b p ≤ b.length := by
  have h0 : p + pn_i0 b p ≤ b.length := by
    unfold pn_i0
    split
    · next hs =>
      have := sign_lt_length (b := b) (p := p) (by simpa using hs)
      omega
    · omega
  have h1 : p + pn_i1 b p ≤ b.length := by
    rw [pn_i1_abs]
    exact skipZeros_le h0
  have h2 : p + pn_i2 b p ≤ b.length := by
    rw [pn_i2_abs]
    exact skipDigits_le h1
  have h3 : p + pn_i3 b p ≤ b.length := by
    unfold pn_i3
    split
    · next hdot =>
      have hlt : p + pn_i2 b p < b.length := by
        apply lt_length_of_chAt_ne
        unfold pn_hasDot at hdot
        simp only [decide_eq_true_eq] at hdot
        rw [hdot]
        decide
      omega
    · omega
  have h3a : p + pn_i3a b p ≤ b.length := by
    unfold pn_i3a
    split
    · have hge := skipZeros_ge b (p + pn_i3 b p)
      have := skipZeros_le h3
      omega
    · exact h3
  unfold pn_i4
  split
  · have hge := skipDigits_ge b (p + pn_i3a b p)
    have := skipDigits_le h3a
    omega
  · exact h3

/-- `parse_exp` never shortens the scan below the mantissa length. -/
theorem parse_exp_len_ge (b : List Char) (p i4 d n4 : Nat) :
    i4 ≤ (parse_exp b p i4 d n4).len := by
  unfold parse_exp
  try dsimp only []
  split
  · have h1 := skipDigits_ge (b.set (p + i4) 'e') (p + (i4 + 1 + 1))
    have h2 := skipDigits_ge (b.set (p + i4) 'e') (p + (i4 + 1))
    split <;> split <;> (try dsimp only []) <;> omega
  · try dsimp only []
    omega

/-- `parse_exp` stays within the buffer. -/
theorem parse_exp_len_le {b : List Char} {p i4 : Nat} (d n4 : Nat)
    (hi : p + i4 ≤ b.length) :
    p + (parse_exp b p i4 d n4).len ≤ b.length := by
  unfold parse_exp
  try dsimp only []
  split
  · next hm =>
    have hlt : p + i4 < b.length := by
      apply lt_length_of_chAt_ne
      intro hn
      rw [hn] at hm
      exact absurd hm (by decide)
    have hL : (b.set (p + i4) 'e').length = b.length := by simp
    have hge1 := skipDigits_ge (b.set (p + i4) 'e') (p + (i4 + 1 + 1))
    have hge2 := skipDigits_ge (b.set (p + i4) 'e') (p + (i4 + 1))
    have hs2 := @skipDigits_le (b.set (p + i4) 'e') (p + (i4 + 1))
      (by rw [hL]; omega)
    rw [hL] at hs2
    split
    · next hsgn =>
      have hlt2 : p + (i4 + 1) < (b.set (p + i4) 'e').length := by
        apply lt_length_of_chAt_ne
        intro hn
        rw [hn] at hsgn
        exact absurd hsgn (by decide)
      have hs1 := @skipDigits_le (b.set (p + i4) 'e') (p + (i4 + 1 + 1)) (by omega)
      rw [hL] at hs1
      split <;> (try dsimp only []) <;> omega
    · split <;> (try dsimp only []) <;> omega
  · try dsimp only []
    omega

/-- An accepted parse is at least as long as its mantissa scan. -/
theorem parse_len_ge {b : List Char} {p : Nat} (h : pn_valid b p) :
    pn_i4 b p ≤ (parse_number b p).len := by
  unfold parse_number
  rw [if_pos h]
  exact parse_exp_len_ge _ _ _ _ _

/-- The parse never runs past the end of the buffer. -/
theorem parse_len_le {b : List Char} {p : Nat} (hp : p ≤ b.length) :
    p + (parse_number b p).len ≤ b.length := by
  unfold parse_number
  split
  · exact parse_exp_len_le _ _ (pn_i4_le hp)
  · try dsimp only []
    omega

/-- `parse_number` preserves the buffer length (its writes are in-place
`set`s). -/
theorem parse_buf_length (b : List Char) (p : Nat) :
    (parse_number b p).buf.length = b.length := by
  unfold parse_number parse_exp
  try dsimp only []
  split
  · split
    · split <;> split <;> (try dsimp only []) <;> simp
    · rfl
  · rfl

theorem nul_free_set_e {b : List Char} (h : nulChar ∉ b) (x : Nat) :
    nulChar ∉ b.set x 'e' := by
  intro hmem
  rcases List.mem_or_eq_of_mem_set hmem with h1 | h1
  · exact h h1
  · exact absurd h1 (by decide)

theorem nul_free_set_ne {b : List Char} (h : nulChar ∉ b) {c : Char}
    (hc : c ≠ nulChar) (x : Nat) : nulChar ∉ b.set x c := by
  intro hmem
  rcases List.mem_or_eq_of_mem_set hmem with h1 | h1
  · exact h h1
  · exact hc h1.symm

/-- `parse_number` writes no NUL byte: a NUL-free buffer stays NUL-free. -/
theorem parse_buf_nul_free {b : List Char} {p : Nat} (h : nulChar ∉ b) :
    nulChar ∉ (parse_number b p).buf := by
  unfold parse_number parse_exp
  try dsimp only []
  split
  · split
    · next hm =>
      have hcm : chAt b (p + pn_i4 b p) ≠ nulChar := by
        intro hn
        rw [hn] at hm
        exact absurd hm (by decide)
      split <;> split <;> (try dsimp only []) <;>
        first
          | exact nul_free_set_ne (nul_free_set_e h _) hcm _
          | exact nul_free_set_e h _
    · try dsimp only []
      exact h
  · try dsimp only []
    exact h

/-- Backing up with `backtrack_number` from a digit byte and parsing there
accepts a literal whose mantissa scan reaches past the digit: each of the
four backtrack shapes (bare, after dot, after sign, after sign-dot) yields a
valid parse ending at the digit chain's end. -/
theorem backtrack_parse_progress {b : List Char} {j : Nat}
    (hd : isDigitC (chAt b j) = true) :
    pn_valid b (backtrack_number b j) ∧
    j + 1 ≤ backtrack_number b j + pn_i4 b (backtrack_number b j) := by
  obtain ⟨hm, hpl, hdt, hsp, hnul, htb⟩ := isDigitC_ne_chars hd
  have hC := chain_gt hd
  have hbt : backtrack_number b j =
      (let j' := if 0 < j ∧ chAt b (j - 1) = '.' then j - 1 else j
       if 0 < j' ∧ (chAt b (j' - 1) = '-' ∨ chAt b (j' - 1) = '+') then j' - 1
       else j') := by
    unfold backtrack_number
    rw [if_neg hsp, if_neg hdt, if_pos hd]
  rw [hbt]
  dsimp only []
  by_cases hdot1 : 0 < j ∧ chAt b (j - 1) = '.'
  · rw [if_pos hdot1]
    have hj : 0 < j := hdot1.1
    by_cases hsgn : 0 < j - 1 ∧ (chAt b (j - 1 - 1) = '-' ∨ chAt b (j - 1 - 1) = '+')
    · rw [if_pos hsgn]
      have hj1 : 0 < j - 1 := hsgn.1
      have hp1 : j - 1 - 1 + 1 = j - 1 := by omega
      have hi0 : pn_i0 b (j - 1 - 1) = 1 := by
        unfold pn_i0
        rcases hsgn.2 with h | h <;> simp [h]
      have h1v : pn_i1 b (j - 1 - 1) = 1 := by
        have ha := pn_i1_abs b (j - 1 - 1)
        rw [hi0, skipZeros_eq (by rw [hp1, hdot1.2]; decide)] at ha
        omega
      have h2v : pn_i2 b (j - 1 - 1) = 1 := by
        have ha := pn_i2_abs b (j - 1 - 1)
        rw [h1v, skipDigits_eq (by rw [hp1, hdot1.2]; decide)] at ha
        omega
      have hn2 : pn_n2 b (j - 1 - 1) = 0 := by
        unfold pn_n2
        omega
      have hdotT : pn_hasDot b (j - 1 - 1) = true := by
        simp [pn_hasDot, h2v, hp1, hdot1.2]
      have h3v : pn_i3 b (j - 1 - 1) = 2 := by
        unfold pn_i3
        rw [if_pos hdotT, h2v]
      have hcond : (pn_hasDot b (j - 1 - 1) &&
          decide (pn_n2 b (j - 1 - 1) = 0)) = true := by
        simp [hdotT, hn2]
      have h13 : j - 1 - 1 + pn_i3 b (j - 1 - 1) = j := by omega
      have h3a : j - 1 - 1 + pn_i3a b (j - 1 - 1) = skipZeros b j := by
        unfold pn_i3a
        rw [if_pos hcond, h13]
        have := skipZeros_ge b j
        omega
      have h4 : j - 1 - 1 + pn_i4 b (j - 1 - 1) =
          skipDigits b (skipZeros b j) := by
        unfold pn_i4
        rw [if_pos hdotT, h3a]
        have h1 := skipZeros_ge b j
        have h2 := skipDigits_ge b (skipZeros b j)
        omega
      have h34 : pn_i3 b (j - 1 - 1) < pn_i4 b (j - 1 - 1) := by omega
      exact ⟨pn_valid_of_digit (Or.inr h34), by omega⟩
    · rw [if_neg hsgn]
      have hi0 : pn_i0 b (j - 1) = 0 := by
        unfold pn_i0
        rw [if_neg (by
          simp only [Bool.or_eq_true, decide_eq_true_eq]
          rw [hdot1.2]
          decide)]
      have h1v : pn_i1 b (j - 1) = 0 := by
        have ha := pn_i1_abs b (j - 1)
        rw [hi0, Nat.add_zero, skipZeros_eq (by rw [hdot1.2]; decide)] at ha
        omega
      have h2v : pn_i2 b (j - 1) = 0 := by
        have ha := pn_i2_abs b (j - 1)
        rw [h1v, Nat.add_zero, skipDigits_eq (by rw [hdot1.2]; decide)] at ha
        omega
      have hn2 : pn_n2 b (j - 1) = 0 := by
        unfold pn_n2
        omega
      have hdotT : pn_hasDot b (j - 1) = true := by
        simp [pn_hasDot, h2v, hdot1.2]
      have h3v : pn_i3 b (j - 1) = 1 := by
        unfold pn_i3
        rw [if_pos hdotT, h2v]
      have hcond : (pn_hasDot b (j - 1) &&
          decide (pn_n2 b (j - 1) = 0)) = true := by
        simp [hdotT, hn2]
      have h13 : j - 1 + pn_i3 b (j - 1) = j := by omega
      have h3a : j - 1 + pn_i3a b (j - 1) = skipZeros b j := by
        unfold pn_i3a
        rw [if_pos hcond, h13]
        have := skipZeros_ge b j
        omega
      have h4 : j - 1 + pn_i4 b (j - 1) = skipDigits b (skipZeros b j) := by
        unfold pn_i4
        rw [if_pos hdotT, h3a]
        have h1 := skipZeros_ge b j
        have h2 := skipDigits_ge b (skipZeros b j)
        omega
      have h34 : pn_i3 b (j - 1) < pn_i4 b (j - 1) := by omega
      exact ⟨pn_valid_of_digit (Or.inr h34), by omega⟩
  · rw [if_neg hdot1]
    by_cases hsgn : 0 < j ∧ (chAt b (j - 1) = '-' ∨ chAt b (j - 1) = '+')
    · rw [if_pos hsgn]
      have hj : 0 < j := hsgn.1
      have hp1 : j - 1 + 1 = j := by omega
      have hi0 : pn_i0 b (j - 1) = 1 := by
        unfold pn_i0
        rcases hsgn.2 with h | h <;> simp [h]
      have hA1 : j - 1 + pn_i1 b (j - 1) = skipZeros b j := by
        rw [pn_i1_abs, hi0, hp1]
      have hA2 : j - 1 + pn_i2 b (j - 1) = skipDigits b (skipZeros b j) := by
        rw [pn_i2_abs, hA1]
      have h02 : pn_i0 b (j - 1) < pn_i2 b (j - 1) := by omega
      have h24 : pn_i2 b (j - 1) ≤ pn_i4 b (j - 1) := by
        exact le_trans (pn_i2_le_i3 _ _)
          (le_trans (pn_i3_le_i3a _ _) (pn_i3a_le_i4 _ _))
      exact ⟨pn_valid_of_digit (Or.inl h02), by omega⟩
    · rw [if_neg hsgn]
      have hi0 : pn_i0 b j = 0 := by
        unfold pn_i0
        rw [if_neg (by
          simp only [Bool.or_eq_true, decide_eq_true_eq]
          rintro (h | h)
          · exact hm h
          · exact hpl h)]
      have hA1 : j + pn_i1 b j = skipZeros b j := by
        rw [pn_i1_abs, hi0, Nat.add_zero]
      have hA2 : j + pn_i2 b j = skipDigits b (skipZeros b j) := by
        rw [pn_i2_abs, hA1]
      have h02 : pn_i0 b j < pn_i2 b j := by omega
      have h24 : pn_i2 b j ≤ pn_i4 b j := by
        exact le_trans (pn_i2_le_i3 _ _)
          (le_trans (pn_i3_le_i3a _ _) (pn_i3a_le_i4 _ _))
      exact ⟨pn_valid_of_digit (Or.inl h02), by omega⟩

/-- Backtracking from a digit and parsing there consumes past the digit:
the scan cursor strictly advances. -/
theorem backtrack_parse_len {b : List Char} {j : Nat}
    (hd : isDigitC (chAt b j) = true) :
    j + 1 ≤ backtrack_number b j + (parse_number b (backtrack_number b j)).len := by
  obtain ⟨hv, hb⟩ := backtrack_parse_progress hd
  have := parse_len_ge hv
  omega

theorem eqWalkRun_le_left : ∀ as bs : List Char, eqWalkRun as bs ≤ as.length
  | [], _ => by simp [eqWalkRun]
  | _ :: _, [] => by simp [eqWalkRun]
  | a :: as, b :: bs => by
    simp only [eqWalkRun, List.length_cons]
    split
    · exact Nat.succ_le_succ (eqWalkRun_le_left as bs)
    · omega

theorem eqWalkRun_le_right : ∀ as bs : List Char, eqWalkRun as bs ≤ bs.length
  | [], _ => by simp [eqWalkRun]
  | _ :: _, [] => by simp [eqWalkRun]
  | a :: as, b :: bs => by
    simp only [eqWalkRun, List.length_cons]
    split
    · exact Nat.succ_le_succ (eqWalkRun_le_right as bs)
    · omega

theorem nonDigitRun_le : ∀ l : List Char, nonDigitRun l ≤ l.length
  | [] => by simp [nonDigitRun]
  | c :: r => by
    simp only [nonDigitRun, List.length_cons]
    split
    · exact Nat.succ_le_succ (nonDigitRun_le r)
    · omega

theorem blankRun_le : ∀ l : List Char, blankRun l ≤ l.length
  | [] => by simp [blankRun]
  | c :: r => by
    simp only [blankRun, List.length_cons]
    split
    · exact Nat.succ_le_succ (blankRun_le r)
    · omega

theorem identRunLoose_le (chr : List Char) : ∀ l : List Char, identRunLoose chr l ≤ l.length
  | [] => by simp [identRunLoose]
  | c :: r => by
    simp only [identRunLoose, List.length_cons]
    split
    · exact Nat.succ_le_succ (identRunLoose_le chr r)
    · omega

theorem identRunStrict_le_left (chr : List Char) :
    ∀ as bs : List Char, identRunStrict chr as bs ≤ as.length
  | [], _ => by simp [identRunStrict]
  | _ :: _, [] => by simp [identRunStrict]
  | a :: as, b :: bs => by
    simp only [identRunStrict, List.length_cons]
    split
    · exact Nat.succ_le_succ (identRunStrict_le_left chr as bs)
    · omega

theorem identRunStrict_le_right (chr : List Char) :
    ∀ as bs : List Char, identRunStrict chr as bs ≤ bs.length
  | [], _ => by simp [identRunStrict]
  | _ :: _, [] => by simp [identRunStrict]
  | a :: as, b :: bs => by
    simp only [identRunStrict, List.length_cons]
    split
    · exact Nat.succ_le_succ (identRunStrict_le_right chr as bs)
    · omega

/-- In a NUL-free buffer, reading NUL means the position is at or past the
end. -/
theorem length_le_of_chAt_nul {b : List Char} {i : Nat}
    (hnf : nulChar ∉ b) (h : chAt b i = nulChar) : b.length ≤ i := by
  by_contra hc
  have hi : i < b.length := Nat.lt_of_not_le hc
  have hx : chAt b i = b[i] := by
    simp [chAt, List.getD, List.getElem?_eq_getElem hi]
  have hm : nulChar ∈ b := by
    rw [← h, hx]
    exact List.getElem_mem hi
  exact hnf hm

/-- `backtrack_number` stays within the buffer. -/
theorem backtrack_le {b : List Char} {i : Nat} (h : i ≤ b.length) :
    backtrack_number b i ≤ b.length := by
  unfold backtrack_number
  split
  · rename_i hsp
    have : i < b.length := by
      apply lt_length_of_chAt_ne
      rw [hsp]
      decide
    omega
  · split
    · split <;> omega
    · split
      · dsimp only
        split <;> split <;> omega
      · exact h

/-- Bounds of an exit of the joined loop body of `ndiff_nextNum`: from
in-buffer positions over NUL-free buffers, an exit leaves both cursors at
most one past the end — exactly one past the terminating NUL on the clean
end-of-line exit, inside the buffers on a found exit — with the buffers
untouched. -/
theorem nextNumJoin_inl_bounds (chr : List Char) (d : Ndiff) (c : Constraint)
    (hnl : nulChar ∉ d.lhs_b) (hnr : nulChar ∉ d.rhs_b)
    (p q : Nat) (hp : p ≤ d.lhs_b.length) (hq : q ≤ d.rhs_b.length)
    (d1 : Ndiff) (col : Nat) (ex : ScanExit)
    (h : nextNumJoin chr d c p q = Sum.inl (d1, col, ex)) :
    (d1.lhs_i ≤ d.lhs_b.length + 1 ∧ d1.rhs_i ≤ d.rhs_b.length + 1 ∧
     d1.lhs_b = d.lhs_b ∧ d1.rhs_b = d.rhs_b) ∧
    (ex = ScanExit.eol → d1.lhs_i = d.lhs_b.length + 1 ∧
                         d1.rhs_i = d.rhs_b.length + 1) ∧
    (ex = ScanExit.found → d1.lhs_i ≤ d.lhs_b.length ∧
                           d1.rhs_i ≤ d.rhs_b.length) := by
  have hbp := @backtrack_le d.lhs_b p hp
  have hbq := @backtrack_le d.rhs_b q hq
  unfold nextNumJoin at h
  dsimp only [] at h
  by_cases h1 : chAt d.lhs_b p = nulChar ∧ chAt d.rhs_b q = nulChar
  · -- end-of-line: both bytes are NUL, so both positions sit at the end
    rw [if_pos h1] at h
    have hpl := length_le_of_chAt_nul hnl h1.1
    have hql := length_le_of_chAt_nul hnr h1.2
    cases h
    refine ⟨⟨?_, ?_, rfl, rfl⟩, fun _ => ⟨?_, ?_⟩, fun hx => absurd hx (by decide)⟩
      <;> simp <;> omega
  · rw [if_neg h1] at h
    by_cases h2 : chAt d.lhs_b p ≠ chAt d.rhs_b q ∧
        (is_number d.lhs_b p = false ∨ is_number d.rhs_b q = false)
    · -- surfaced text difference: one byte past the offending position
      rw [if_pos h2] at h
      by_cases h3 : (!c.eps.cmd.nofail) = true
      · rw [if_pos h3] at h
        cases h
        refine ⟨⟨?_, ?_, rfl, rfl⟩, fun hx => absurd hx (by decide),
          fun hx => absurd hx (by decide)⟩ <;> simp <;> omega
      · rw [if_neg h3] at h
        cases h
        refine ⟨⟨?_, ?_, rfl, rfl⟩, fun hx => absurd hx (by decide),
          fun hx => absurd hx (by decide)⟩ <;> simp <;> omega
    · rw [if_neg h2] at h
      by_cases h4 : is_number_start chr d.lhs_b (backtrack_number d.lhs_b p) = false ∨
          is_number_start chr d.rhs_b (backtrack_number d.rhs_b q) = false
      · -- retry paths: they produce `Sum.inr`, contradicting `h`
        rw [if_pos h4] at h
        by_cases h5 : c.eps.cmd.istr = true
        · rw [if_pos h5] at h
          simp at h
        · rw [if_neg h5] at h
          by_cases h6 : (if c.eps.cmd.omitc then
              !(is_valid_omit d.lhs_b d.rhs_b (backtrack_number d.lhs_b p)
                (backtrack_number d.rhs_b q) c.eps.tag) else true) = true
          · rw [if_pos h6] at h
            simp at h
          · rw [if_neg h6] at h
            simp at h
      · -- numbers found: cursors at the backtracked starts
        rw [if_neg h4] at h
        cases h
        exact ⟨⟨by simp; omega, by simp; omega, rfl, rfl⟩,
          fun hx => absurd hx (by decide), fun _ => ⟨hbp, hbq⟩⟩

/-- A retry leaving the joined loop body keeps both positions inside the
buffers. -/
theorem nextNumJoin_inr_bounds (chr : List Char) (d : Ndiff) (c : Constraint)
    (p q : Nat) (hp : p ≤ d.lhs_b.length) (hq : q ≤ d.rhs_b.length)
    (p1 q1 : Nat)
    (h : nextNumJoin chr d c p q = Sum.inr (p1, q1)) :
    p1 ≤ d.lhs_b.length ∧ q1 ≤ d.rhs_b.length := by
  have hbp := @backtrack_le d.lhs_b p hp
  have hbq := @backtrack_le d.rhs_b q hq
  have hsq : (skipIdentStrict chr d.lhs_b d.rhs_b
      (backtrack_number d.lhs_b p) (backtrack_number d.rhs_b q)).2 ≤
      d.rhs_b.length := by
    have hx := identRunStrict_le_right chr
      (d.lhs_b.drop (backtrack_number d.lhs_b p))
      (d.rhs_b.drop (backtrack_number d.rhs_b q))
    simp only [List.length_drop] at hx
    simp only [skipIdentStrict]
    omega
  unfold nextNumJoin at h
  dsimp only [] at h
  by_cases h1 : chAt d.lhs_b p = nulChar ∧ chAt d.rhs_b q = nulChar
  · rw [if_pos h1] at h
    simp at h
  · rw [if_neg h1] at h
    by_cases h2 : chAt d.lhs_b p ≠ chAt d.rhs_b q ∧
        (is_number d.lhs_b p = false ∨ is_number d.rhs_b q = false)
    · rw [if_pos h2] at h
      by_cases h3 : (!c.eps.cmd.nofail) = true
      · rw [if_pos h3] at h
        simp at h
      · rw [if_neg h3] at h
        simp at h
    · rw [if_neg h2] at h
      by_cases h4 : is_number_start chr d.lhs_b (backtrack_number d.lhs_b p) = false ∨
          is_number_start chr d.rhs_b (backtrack_number d.rhs_b q) = false
      · rw [if_pos h4] at h
        by_cases h5 : c.eps.cmd.istr = true
        · -- istr mode: loose skip on the sides that are not at a start
          rw [if_pos h5] at h
          cases h
          constructor
          · split
            · exact pos_add_run_le hbp (identRunLoose_le _ _)
            · exact hbp
          · split
            · exact pos_add_run_le hbq (identRunLoose_le _ _)
            · exact hbq
        · rw [if_neg h5] at h
          by_cases h6 : (if c.eps.cmd.omitc then
              !(is_valid_omit d.lhs_b d.rhs_b (backtrack_number d.lhs_b p)
                (backtrack_number d.rhs_b q) c.eps.tag) else true) = true
          · -- strict lockstep skip
            rw [if_pos h6] at h
            cases h
            exact ⟨pos_add_run_le hbp (identRunStrict_le_left _ _ _), hsq⟩
          · -- loose skip on both sides (omission)
            rw [if_neg h6] at h
            cases h
            exact ⟨pos_add_run_le hbp (identRunLoose_le _ _),
                   pos_add_run_le hbq (identRunLoose_le _ _)⟩
      · rw [if_neg h4] at h
        simp at h

/-- Bounds of one full `retry` iteration (search phase included), exit
case. -/
theorem nextNumStep_inl_bounds (chr : List Char) (d : Ndiff) (c : Constraint)
    (hnl : nulChar ∉ d.lhs_b) (hnr : nulChar ∉ d.rhs_b)
    (p q : Nat) (hp : p ≤ d.lhs_b.length) (hq : q ≤ d.rhs_b.length)
    (d1 : Ndiff) (col : Nat) (ex : ScanExit)
    (h : nextNumStep chr d c p q = Sum.inl (d1, col, ex)) :
    (d1.lhs_i ≤ d.lhs_b.length + 1 ∧ d1.rhs_i ≤ d.rhs_b.length + 1 ∧
     d1.lhs_b = d.lhs_b ∧ d1.rhs_b = d.rhs_b) ∧
    (ex = ScanExit.eol → d1.lhs_i = d.lhs_b.length + 1 ∧
                         d1.rhs_i = d.rhs_b.length + 1) ∧
    (ex = ScanExit.found → d1.lhs_i ≤ d.lhs_b.length ∧
                           d1.rhs_i ≤ d.rhs_b.length) := by
  have hq0 : q + eqWalkRun (d.lhs_b.drop p) (d.rhs_b.drop q) ≤ d.rhs_b.length := by
    have hx := eqWalkRun_le_right (d.lhs_b.drop p) (d.rhs_b.drop q)
    simp only [List.length_drop] at hx
    omega
  unfold nextNumStep at h
  dsimp only [] at h
  by_cases h1 : c.eps.cmd.istr = true
  · rw [if_pos h1] at h
    exact nextNumJoin_inl_bounds chr d c hnl hnr _ _
      (pos_add_run_le hp (nonDigitRun_le _))
      (pos_add_run_le hq (nonDigitRun_le _)) d1 col ex h
  · rw [if_neg h1] at h
    by_cases h2 : (d.blank &&
        (isBlankC (chAt d.lhs_b (p + eqWalkRun (d.lhs_b.drop p) (d.rhs_b.drop q))) ||
         isBlankC (chAt d.rhs_b (q + eqWalkRun (d.lhs_b.drop p) (d.rhs_b.drop q))))) = true
    · rw [if_pos h2] at h
      simp at h
    · rw [if_neg h2] at h
      exact nextNumJoin_inl_bounds chr d c hnl hnr _ _
        (pos_add_run_le hp (eqWalkRun_le_left _ _)) hq0 d1 col ex h

/-- Bounds of one full `retry` iteration, retry case. -/
theorem nextNumStep_inr_bounds (chr : List Char) (d : Ndiff) (c : Constraint)
    (p q : Nat) (hp : p ≤ d.lhs_b.length) (hq : q ≤ d.rhs_b.length)
    (p1 q1 : Nat)
    (h : nextNumStep chr d c p q = Sum.inr (p1, q1)) :
    p1 ≤ d.lhs_b.length ∧ q1 ≤ d.rhs_b.length := by
  have hq0 : q + eqWalkRun (d.lhs_b.drop p) (d.rhs_b.drop q) ≤ d.rhs_b.length := by
    have hx := eqWalkRun_le_right (d.lhs_b.drop p) (d.rhs_b.drop q)
    simp only [List.length_drop] at hx
    omega
  unfold nextNumStep at h
  dsimp only [] at h
  by_cases h1 : c.eps.cmd.istr = true
  · rw [if_pos h1] at h
    exact nextNumJoin_inr_bounds chr d c _ _
      (pos_add_run_le hp (nonDigitRun_le _))
      (pos_add_run_le hq (nonDigitRun_le _)) p1 q1 h
  · rw [if_neg h1] at h
    by_cases h2 : (d.blank &&
        (isBlankC (chAt d.lhs_b (p + eqWalkRun (d.lhs_b.drop p) (d.rhs_b.drop q))) ||
         isBlankC (chAt d.rhs_b (q + eqWalkRun (d.lhs_b.drop p) (d.rhs_b.drop q))))) = true
    · rw [if_pos h2] at h
      cases h
      exact ⟨pos_add_run_le (pos_add_run_le hp (eqWalkRun_le_left _ _)) (blankRun_le _),
             pos_add_run_le hq0 (blankRun_le _)⟩
    · rw [if_neg h2] at h
      exact nextNumJoin_inr_bounds chr d c _ _
        (pos_add_run_le hp (eqWalkRun_le_left _ _)) hq0 p1 q1 h

/-- Bounds invariant of the `retry` loop of `ndiff_nextNum`. -/
theorem nextNumGo_bounds (chr : List Char) (d : Ndiff) (c : Constraint)
    (hnl : nulChar ∉ d.lhs_b) (hnr : nulChar ∉ d.rhs_b) :
    ∀ fuel p q d1 col ex, p ≤ d.lhs_b.length → q ≤ d.rhs_b.length →
    nextNumGo chr d c fuel p q = some (d1, col, ex) →
    (d1.lhs_i ≤ d.lhs_b.length + 1 ∧ d1.rhs_i ≤ d.rhs_b.length + 1 ∧
     d1.lhs_b = d.lhs_b ∧ d1.rhs_b = d.rhs_b) ∧
    (ex = ScanExit.eol → d1.lhs_i = d.lhs_b.length + 1 ∧
                         d1.rhs_i = d.rhs_b.length + 1) ∧
    (ex = ScanExit.found → d1.lhs_i ≤ d.lhs_b.length ∧
                           d1.rhs_i ≤ d.rhs_b.length) := by
  intro fuel
  induction fuel with
  | zero =>
    intro p q d1 col ex _ _ h
    exact absurd h (by simp [nextNumGo])
  | succ fuel ih =>
    intro p q d1 col ex hp hq hrun
    rw [nextNumGo] at hrun
    rcases hs : nextNumStep chr d c p q with r | pq
    · rw [hs] at hrun
      obtain ⟨r1, r2, r3⟩ := r
      cases hrun
      exact nextNumStep_inl_bounds chr d c hnl hnr p q hp hq _ _ _ hs
    · rw [hs] at hrun
      obtain ⟨hp1, hq1⟩ := nextNumStep_inr_bounds chr d c p q hp hq pq.1 pq.2
        (by rw [hs])
      exact ih pq.1 pq.2 d1 col ex hp1 hq1 hrun

theorem fillLine_cursors (d : Ndiff) (lb rb : List Char) :
    (ndiff_fillLine d lb rb).lhs_i = 0 ∧ (ndiff_fillLine d lb rb).rhs_i = 0 := by
  simp only [ndiff_fillLine, ndiff_grow, ndiff_reset_buf]
  split <;> exact ⟨rfl, rfl⟩

theorem readLine_cursors (d : Ndiff) :
    (ndiff_readLine d).1.lhs_i = 0 ∧ (ndiff_readLine d).1.rhs_i = 0 :=
  ⟨rfl, rfl⟩

theorem TestRet.or_empty (r : TestRet) : r.or {} = r := by
  simp [TestRet.or]

/-- On a pair of identical tails the lockstep equality walk of
`ndiff_nextNum` stops only on a NUL read or on a digit. -/
theorem eqWalkRun_ident : ∀ l : List Char,
    chAt l (eqWalkRun l l) = nulChar ∨ isDigitC (chAt l (eqWalkRun l l)) = true
  | [] => Or.inl rfl
  | c :: r => by
    by_cases h : (decide ¬c = nulChar && decide (c = c) && !isDigitC c) = true
    · rw [show eqWalkRun (c :: r) (c :: r) = eqWalkRun r r + 1 from by
        rw [eqWalkRun, if_pos h]]
      rw [show chAt (c :: r) (eqWalkRun r r + 1) = chAt r (eqWalkRun r r) from rfl]
      exact eqWalkRun_ident r
    · rw [show eqWalkRun (c :: r) (c :: r) = 0 from by
        rw [eqWalkRun, if_neg h]]
      rw [show chAt (c :: r) 0 = c from rfl]
      by_cases hn : c = nulChar
      · exact Or.inl hn
      · right
        by_cases hd : isDigitC c = true
        · exact hd
        · exact absurd (by simp [hn, hd]) h

theorem eqWalkRun_ident_at (l : List Char) (i : Nat) :
    chAt l (i + eqWalkRun (l.drop i) (l.drop i)) = nulChar ∨
    isDigitC (chAt l (i + eqWalkRun (l.drop i) (l.drop i))) = true := by
  have h := eqWalkRun_ident (l.drop i)
  rw [show chAt (l.drop i) (eqWalkRun (l.drop i) (l.drop i))
      = chAt l (i + eqWalkRun (l.drop i) (l.drop i)) from chAt_drop l i _] at h
  exact h

/-- On a pair of identical tails the strict identifier run covers any
separator-free prefix. -/
theorem identRunStrict_ident_ge (chr : List Char) :
    ∀ (m : Nat) (l : List Char), m ≤ l.length →
    (∀ k, k < m → is_separator chr (chAt l k) = false) →
    m ≤ identRunStrict chr l l
  | 0, _, _, _ => Nat.zero_le _
  | m + 1, [], hlen, _ => by simp at hlen
  | m + 1, c :: r, hlen, hsep => by
    have h0 : is_separator chr c = false := by
      have := hsep 0 (Nat.succ_pos _)
      simpa [chAt] using this
    rw [show identRunStrict chr (c :: r) (c :: r) = identRunStrict chr r r + 1 from by
      rw [identRunStrict, if_pos (by simp [h0])]]
    have hih := identRunStrict_ident_ge chr m r (by simpa using hlen)
      (fun k hk => by
        have := hsep (k + 1) (by omega)
        simpa [chAt] using this)
    omega

/-- The post-search body of `ndiff_nextNum` on identical NUL-free buffers at
equal positions, for a rule without `istr`/`omit`: a NUL read exits clean at
`length + 1`, a digit with a recognized number start exits `found` at the
backtracked position, and any other digit retries strictly further on. -/
theorem nextNumJoin_ident {chr : List Char} {d : Ndiff} {c : Constraint}
    {l : List Char} {p : Nat}
    (hl : d.lhs_b = l) (hr : d.rhs_b = l) (hnf : nulChar ∉ l)
    (homit : c.eps.cmd.omitc = false) (histr : c.eps.cmd.istr = false)
    (hsep : is_separator chr '.' = false)
    (hp : p ≤ l.length)
    (hcase : chAt l p = nulChar ∨ isDigitC (chAt l p) = true) :
    (nextNumJoin chr d c p p =
       Sum.inl ({ d with lhs_i := l.length + 1, rhs_i := l.length + 1, col_i := 0 },
                0, ScanExit.eol))
    ∨ (isDigitC (chAt l p) = true ∧ nextNumJoin chr d c p p =
       Sum.inl ({ d with
                   lhs_i := backtrack_number l p, rhs_i := backtrack_number l p,
                   num_i := d.num_i + 1, col_i := d.col_i + 1 },
                d.col_i + 1, ScanExit.found))
    ∨ (∃ i2, p + 1 ≤ i2 ∧ i2 ≤ l.length ∧
        nextNumJoin chr d c p p = Sum.inr (i2, i2)) := by
  unfold nextNumJoin
  rw [hl, hr]
  rcases hcase with hnul | hdig
  · have hpl : p = l.length := le_antisymm hp (length_le_of_chAt_nul hnf hnul)
    rw [if_pos ⟨hnul, hnul⟩]
    subst hpl
    exact Or.inl rfl
  · have hnn : chAt l p ≠ nulChar := by
      intro he
      rw [he] at hdig
      exact absurd hdig (by decide)
    rw [if_neg (fun hc => hnn hc.1)]
    rw [if_neg (fun hc => hc.1 rfl)]
    dsimp only []
    obtain ⟨hm, hpl', hdt, hsp, hnul', htb⟩ := isDigitC_ne_chars hdig
    have hplen : p < l.length := lt_length_of_chAt_ne hnn
    by_cases hstart : is_number_start chr l (backtrack_number l p) = true
    · rw [if_neg (by simp [hstart])]
      exact Or.inr (Or.inl ⟨hdig, rfl⟩)
    · have hstart' : is_number_start chr l (backtrack_number l p) = false := by
        simpa using hstart
      rw [if_pos (Or.inl hstart')]
      rw [if_neg (show ¬(c.eps.cmd.istr = true) from fun hx => by
        rw [histr] at hx
        exact Bool.false_ne_true hx)]
      rw [homit, if_neg Bool.false_ne_true, if_pos rfl]
      have hprog : p + 1 ≤ backtrack_number l p +
          identRunStrict chr (l.drop (backtrack_number l p))
            (l.drop (backtrack_number l p)) := by
        by_cases hdot1 : 0 < p ∧ chAt l (p - 1) = '.'
        · by_cases hsgn : 0 < p - 1 ∧
              (chAt l (p - 1 - 1) = '-' ∨ chAt l (p - 1 - 1) = '+')
          · exfalso
            have htv : backtrack_number l p = p - 1 - 1 := by
              unfold backtrack_number
              rw [if_neg hsp, if_neg hdt, if_pos hdig]
              dsimp only []
              rw [if_pos hdot1, if_pos hsgn]
            have hstt : is_number_start chr l (p - 1 - 1) = true := by
              unfold is_number_start
              rcases hsgn.2 with h | h <;> simp [h]
            rw [htv, hstt] at hstart'
            exact absurd hstart' (by decide)
          · have htv : backtrack_number l p = p - 1 := by
              unfold backtrack_number
              rw [if_neg hsp, if_neg hdt, if_pos hdig]
              dsimp only []
              rw [if_pos hdot1, if_neg hsgn]
            rw [htv]
            have hge2 : 2 ≤ identRunStrict chr (l.drop (p - 1)) (l.drop (p - 1)) := by
              apply identRunStrict_ident_ge chr 2 (l.drop (p - 1))
              · simp only [List.length_drop]
                omega
              · intro k hk
                have hk2 : k = 0 ∨ k = 1 := by omega
                rcases hk2 with rfl | rfl
                · rw [chAt_drop, Nat.add_zero, hdot1.2]
                  exact hsep
                · rw [chAt_drop, show p - 1 + 1 = p by omega]
                  exact isDigitC_not_sep chr hdig
            omega
        · by_cases hsgn : 0 < p ∧ (chAt l (p - 1) = '-' ∨ chAt l (p - 1) = '+')
          · exfalso
            have htv : backtrack_number l p = p - 1 := by
              unfold backtrack_number
              rw [if_neg hsp, if_neg hdt, if_pos hdig]
              dsimp only []
              rw [if_neg hdot1, if_pos hsgn]
            have hstt : is_number_start chr l (p - 1) = true := by
              unfold is_number_start
              rcases hsgn.2 with h | h <;> simp [h]
            rw [htv, hstt] at hstart'
            exact absurd hstart' (by decide)
          · have htv : backtrack_number l p = p := by
              unfold backtrack_number
              rw [if_neg hsp, if_neg hdt, if_pos hdig]
              dsimp only []
              rw [if_neg hdot1, if_neg hsgn]
            rw [htv]
            have hge1 : 1 ≤ identRunStrict chr (l.drop p) (l.drop p) := by
              apply identRunStrict_ident_ge chr 1 (l.drop p)
              · simp only [List.length_drop]
                omega
              · intro k hk
                have hk0 : k = 0 := by omega
                subst hk0
                rw [chAt_drop, Nat.add_zero]
                exact isDigitC_not_sep chr hdig
            omega
      have hble : backtrack_number l p ≤ l.length := backtrack_le (le_of_lt hplen)
      have hrle := identRunStrict_le_left chr (l.drop (backtrack_number l p))
        (l.drop (backtrack_number l p))
      simp only [List.length_drop] at hrle
      exact Or.inr (Or.inr ⟨backtrack_number l p +
        identRunStrict chr (l.drop (backtrack_number l p))
          (l.drop (backtrack_number l p)),
        hprog, by omega, rfl⟩)

/-- One `retry` iteration of `ndiff_nextNum` on identical NUL-free buffers
at equal positions. -/
theorem nextNumStep_ident {chr : List Char} {d : Ndiff} {c : Constraint}
    {l : List Char} {i : Nat}
    (hl : d.lhs_b = l) (hr : d.rhs_b = l) (hnf : nulChar ∉ l)
    (hb : d.blank = false)
    (histr : c.eps.cmd.istr = false) (homit : c.eps.cmd.omitc = false)
    (hsep : is_separator chr '.' = false) (hi : i ≤ l.length) :
    (nextNumStep chr d c i i =
       Sum.inl ({ d with lhs_i := l.length + 1, rhs_i := l.length + 1, col_i := 0 },
                0, ScanExit.eol))
    ∨ (∃ p, i ≤ p ∧ p ≤ l.length ∧ isDigitC (chAt l p) = true ∧
        nextNumStep chr d c i i =
          Sum.inl ({ d with
                      lhs_i := backtrack_number l p,
                      rhs_i := backtrack_number l p,
                      num_i := d.num_i + 1, col_i := d.col_i + 1 },
                   d.col_i + 1, ScanExit.found))
    ∨ (∃ i2, i + 1 ≤ i2 ∧ i2 ≤ l.length ∧
        nextNumStep chr d c i i = Sum.inr (i2, i2)) := by
  have hstep : nextNumStep chr d c i i =
      nextNumJoin chr d c (i + eqWalkRun (l.drop i) (l.drop i))
        (i + eqWalkRun (l.drop i) (l.drop i)) := by
    unfold nextNumStep
    rw [hl, hr]
    rw [if_neg (show ¬(c.eps.cmd.istr = true) from fun hx => by
      rw [histr] at hx
      exact Bool.false_ne_true hx)]
    dsimp only []
    rw [hb, Bool.false_and, if_neg Bool.false_ne_true]
  rw [hstep]
  have hik : i ≤ i + eqWalkRun (l.drop i) (l.drop i) := Nat.le_add_right _ _
  have hP : i + eqWalkRun (l.drop i) (l.drop i) ≤ l.length := by
    have := eqWalkRun_le_left (l.drop i) (l.drop i)
    simp only [List.length_drop] at this
    omega
  rcases nextNumJoin_ident hl hr hnf homit histr hsep hP (eqWalkRun_ident_at l i)
    with hj | ⟨hdig, hj⟩ | ⟨i2, h1, h2, hj⟩
  · exact Or.inl hj
  · exact Or.inr (Or.inl ⟨_, hik, hP, hdig, hj⟩)
  · exact Or.inr (Or.inr ⟨i2, by omega, h2, hj⟩)

/-- The `retry` loop of `ndiff_nextNum` on identical NUL-free buffers at
equal positions terminates (with enough fuel) in a clean end-of-line exit
or on a found number. -/
theorem nextNumGo_ident {chr : List Char} {d : Ndiff} {c : Constraint}
    {l : List Char}
    (hl : d.lhs_b = l) (hr : d.rhs_b = l) (hnf : nulChar ∉ l)
    (hb : d.blank = false)
    (histr : c.eps.cmd.istr = false) (homit : c.eps.cmd.omitc = false)
    (hsep : is_separator chr '.' = false) :
    ∀ (fuel i : Nat), i ≤ l.length → l.length + 1 ≤ fuel + i →
    (nextNumGo chr d c fuel i i =
       some ({ d with lhs_i := l.length + 1, rhs_i := l.length + 1, col_i := 0 },
             0, ScanExit.eol))
    ∨ (∃ p, i ≤ p ∧ p ≤ l.length ∧ isDigitC (chAt l p) = true ∧
        nextNumGo chr d c fuel i i =
          some ({ d with
                   lhs_i := backtrack_number l p,
                   rhs_i := backtrack_number l p,
                   num_i := d.num_i + 1, col_i := d.col_i + 1 },
                d.col_i + 1, ScanExit.found)) := by
  intro fuel
  induction fuel with
  | zero =>
    intro i hi hf
    omega
  | succ fuel ih =>
    intro i hi hf
    rw [nextNumGo]
    rcases nextNumStep_ident hl hr hnf hb histr homit hsep hi
      with hs | ⟨p, h1, h2, h3, hs⟩ | ⟨i2, h1, h2, hs⟩
    · rw [hs]
      exact Or.inl rfl
    · rw [hs]
      exact Or.inr ⟨p, h1, h2, h3, rfl⟩
    · rw [hs]
      rcases ih i2 h2 (by omega) with hgo | ⟨p, hp1, hp2, hp3, hgo⟩
      · exact Or.inl hgo
      · exact Or.inr ⟨p, by omega, hp2, hp3, hgo⟩

/-- `ndiff_nextNum` on identical NUL-free buffers at equal in-bounds
cursors: a clean end-of-line exit at `length + 1`, or a found number at a
backtracked digit position at or after the cursor. -/
theorem ndiff_nextNum_ident {chr : List Char} {d : Ndiff} {c : Constraint}
    {l : List Char}
    (hl : d.lhs_b = l) (hr : d.rhs_b = l) (hnf : nulChar ∉ l)
    (hb : d.blank = false)
    (histr : c.eps.cmd.istr = false) (homit : c.eps.cmd.omitc = false)
    (hsep : is_separator chr '.' = false)
    (hie : d.rhs_i = d.lhs_i) (hi : d.lhs_i ≤ l.length)
    (fuel : Nat) (hf : l.length + 1 ≤ fuel + d.lhs_i) :
    (ndiff_nextNum chr fuel d c =
       some ({ d with lhs_i := l.length + 1, rhs_i := l.length + 1, col_i := 0 },
             0, ScanExit.eol))
    ∨ (∃ p, d.lhs_i ≤ p ∧ p ≤ l.length ∧ isDigitC (chAt l p) = true ∧
        ndiff_nextNum chr fuel d c =
          some ({ d with
                   lhs_i := backtrack_number l p,
                   rhs_i := backtrack_number l p,
                   num_i := d.num_i + 1, col_i := d.col_i + 1 },
                d.col_i + 1, ScanExit.found)) := by
  unfold ndiff_nextNum
  by_cases hemp : ndiff_isempty d = true
  · rw [if_pos hemp]
    left
    have hnul0 : chAt l d.lhs_i = nulChar := by
      unfold ndiff_isempty at hemp
      rw [hl] at hemp
      simp only [Bool.and_eq_true, decide_eq_true_eq] at hemp
      exact hemp.1
    have hlen : d.lhs_i = l.length := le_antisymm hi (length_le_of_chAt_nul hnf hnul0)
    rw [hie, hlen]
  · rw [if_neg hemp, hie]
    exact nextNumGo_ident hl hr hnf hb histr homit hsep fuel d.lhs_i hi hf

/-- One `ndiff_testNum` call on identical buffers at equal cursors under a
rule without `ign`/`omit`/`equ`, without register indirection, with a zero
offset and with bounds straddling zero: the parsed values coincide, the
difference is 0, every axis passes, the returned bitmask is clean, and
both cursors advance past the parsed literal (both buffers take the
parse's in-place rewrite). -/
theorem testNum_ident (d : Ndiff) (c : Constraint)
    (heq : d.rhs_b = d.lhs_b) (hie : d.rhs_i = d.lhs_i)
    (hv : pn_valid d.lhs_b d.lhs_i)
    (hign : c.eps.cmd.ign = false) (homit : c.eps.cmd.omitc = false)
    (hequ : c.eps.cmd.equ = false)
    (hlf : c.eps.cmd.lhs = false) (hrf : c.eps.cmd.rhs = false)
    (hg1 : c.eps.lhs_reg = 0) (hg2 : c.eps.rhs_reg = 0)
    (hg3 : c.eps.scl_reg = 0) (hg4 : c.eps.off_reg = 0)
    (hg5 : c.eps.abs_reg = 0) (hg6 : c.eps.nabs_reg = 0)
    (hg7 : c.eps.rel_reg = 0) (hg8 : c.eps.nrel_reg = 0)
    (hg9 : c.eps.dig_reg = 0) (hg10 : c.eps.ndig_reg = 0)
    (hoff : c.eps.off = 0)
    (habs : 0 ≤ c.eps.abs) (hnabs : c.eps.nabs ≤ 0)
    (hrel : 0 ≤ c.eps.rel) (hnrel : c.eps.nrel ≤ 0)
    (hdg : 0 ≤ c.eps.dig) (hndg : c.eps.ndig ≤ 0) :
    ∃ (R : Nat → ℚ) (v M P : ℚ),
      ndiff_testNum d c =
        ({ d with
            lhs_b := (parse_number d.lhs_b d.lhs_i).buf,
            rhs_b := (parse_number d.lhs_b d.lhs_i).buf,
            lhs_i := d.lhs_i + (parse_number d.lhs_b d.lhs_i).len,
            rhs_i := d.lhs_i + (parse_number d.lhs_b d.lhs_i).len,
            reg := R },
         { ret := {}, l1 := (parse_number d.lhs_b d.lhs_i).len,
           l2 := (parse_number d.lhs_b d.lhs_i).len,
           lhs_d := v, rhs_d := v, dif_d := 0, err_d := 0, abs_d := 0,
           rel_d := 0, dig_d := 0, min_d := M, pow_d := P }) := by
  have hlen0 : (parse_number d.lhs_b d.lhs_i).len ≠ 0 := by
    have h1 := parse_len_ge hv
    have h2 := hv.1
    omega
  have hkey := testNum_axis_eval d c hign homit hequ hlf hrf hg1 hg2 hg3 hg4 hg5
    hg6 hg7 hg8 hg9 hg10 hlen0 (by rw [heq, hie]; exact hlen0)
  rw [heq, hie] at hkey
  dsimp only [] at hkey
  rw [ite_self] at hkey
  rw [hoff] at hkey
  simp only [sub_self, mul_zero, add_zero, zero_div] at hkey
  rw [decide_eq_false (show ¬((0:ℚ) > c.eps.abs ∨ (0:ℚ) < c.eps.nabs) from
        fun hc => hc.elim (fun h => absurd h (not_lt.mpr habs))
          (fun h => absurd h (not_lt.mpr hnabs))),
      decide_eq_false (show ¬((0:ℚ) > c.eps.rel ∨ (0:ℚ) < c.eps.nrel) from
        fun hc => hc.elim (fun h => absurd h (not_lt.mpr hrel))
          (fun h => absurd h (not_lt.mpr hnrel))),
      decide_eq_false (show ¬((0:ℚ) > c.eps.dig ∨ (0:ℚ) < c.eps.ndig) from
        fun hc => hc.elim (fun h => absurd h (not_lt.mpr hdg))
          (fun h => absurd h (not_lt.mpr hndg)))] at hkey
  simp only [Bool.and_false] at hkey
  rw [ite_self] at hkey
  rw [show TestRet.isZero ({} : TestRet) = true from rfl] at hkey
  rw [if_pos rfl] at hkey
  unfold testNumQuit at hkey
  dsimp only [] at hkey
  rw [show TestRet.isZero ({} : TestRet) = true from rfl, Bool.true_or] at hkey
  rw [if_pos rfl] at hkey
  exact ⟨_, _, _, _, hkey⟩

/-- The inner per-column loop of the driver on identical NUL-free buffers
at equal cursors, over a row of plain rules: it terminates cleanly, the
accumulated result stays unchanged, the diff counter is untouched, and
the streams, EOF flags, context, options and row survive. -/
theorem loopCols_ident {chr : List Char} (hsep : is_separator chr '.' = false) :
    ∀ (fuel : Nat) (d : Ndiff) (c : Constraint) (row : Nat) (ret : TestRet)
      (calls : Nat),
    d.rhs_b = d.lhs_b → nulChar ∉ d.lhs_b → d.rhs_i = d.lhs_i →
    d.lhs_i ≤ d.lhs_b.length → d.blank = false →
    c.eps.cmd.istr = false → c.eps.cmd.omitc = false →
    (∀ col, PlainRule (d.cxt row col)) →
    2 * d.lhs_b.length + 2 ≤ fuel + 2 * d.lhs_i →
    ∃ d2 calls2,
      loopCols chr fuel d c row ret calls = some (d2, ret, calls2) ∧
      d2.cnt_i = d.cnt_i ∧ d2.lhs_f = d.lhs_f ∧ d2.rhs_f = d.rhs_f ∧
      d2.lhs_eof = d.lhs_eof ∧ d2.rhs_eof = d.rhs_eof ∧
      d2.cxt = d.cxt ∧ d2.check = d.check ∧ d2.blank = false ∧
      d2.row_i = d.row_i := by
  intro fuel
  induction fuel with
  | zero =>
    intro d c row ret calls hl hnf hie hi hb histr homit hplain hfuel
    omega
  | succ fuel ih =>
    intro d c row ret calls hl hnf hie hi hb histr homit hplain hfuel
    rw [loopCols]
    rcases ndiff_nextNum_ident rfl hl hnf hb histr homit hsep hie hi
        (d.lhs_b.length + d.rhs_b.length + 2) (by omega)
      with hnn | ⟨p, hp1, hp2, hp3, hnn⟩
    · rw [hnn]
      dsimp only []
      rw [if_pos rfl]
      exact ⟨_, calls, rfl, rfl, rfl, rfl, rfl, rfl, rfl, rfl, hb, rfl⟩
    · rw [hnn]
      dsimp only []
      rw [if_neg (Nat.succ_ne_zero _)]
      rw [if_neg (fun hc => hc.2 rfl)]
      obtain ⟨-, -, -, hsgg, histr1, homit1, hign1, hequ1, hlf1, hrf1,
        hq1, hq2, hq3, hq4, hq5, hq6, hq7, hq8, hq9, hq10, hoff1,
        hw1, hw2, hw3, hw4, hw5, hw6⟩ := hplain (d.col_i + 1)
      rw [if_neg (fun hx => by rw [hsgg] at hx; exact Bool.false_ne_true hx)]
      obtain ⟨R, v, M, P, hkey⟩ := testNum_ident
        { d with
           lhs_i := backtrack_number d.lhs_b p,
           rhs_i := backtrack_number d.lhs_b p,
           num_i := d.num_i + 1, col_i := d.col_i + 1 }
        (d.cxt row (d.col_i + 1))
        hl rfl ((backtrack_parse_progress hp3).1)
        hign1 homit1 hequ1 hlf1 hrf1
        hq1 hq2 hq3 hq4 hq5 hq6 hq7 hq8 hq9 hq10 hoff1
        hw1 hw2 hw3 hw4 hw5 hw6
      rw [hkey]
      dsimp only []
      rw [TestRet.or_empty]
      have hble : backtrack_number d.lhs_b p ≤ d.lhs_b.length :=
        backtrack_le hp2
      have hlenle := parse_len_le hble
      have hprogress := backtrack_parse_len hp3
      have hi2 : backtrack_number d.lhs_b p +
          (parse_number d.lhs_b (backtrack_number d.lhs_b p)).len ≤
          ((parse_number d.lhs_b (backtrack_number d.lhs_b p)).buf).length := by
        rw [parse_buf_length]
        exact hlenle
      have hfe2 : 2 * ((parse_number d.lhs_b (backtrack_number d.lhs_b p)).buf).length
          + 2 ≤ fuel + 2 * (backtrack_number d.lhs_b p +
            (parse_number d.lhs_b (backtrack_number d.lhs_b p)).len) := by
        rw [parse_buf_length]
        omega
      obtain ⟨d2, calls2, hrec, hf1, hf2, hf3, hf4, hf5, hf6, hf7, hf8, hf9⟩ :=
        ih { d with
              lhs_b := (parse_number d.lhs_b (backtrack_number d.lhs_b p)).buf,
              rhs_b := (parse_number d.lhs_b (backtrack_number d.lhs_b p)).buf,
              lhs_i := backtrack_number d.lhs_b p +
                (parse_number d.lhs_b (backtrack_number d.lhs_b p)).len,
              rhs_i := backtrack_number d.lhs_b p +
                (parse_number d.lhs_b (backtrack_number d.lhs_b p)).len,
              num_i := d.num_i + 1, col_i := d.col_i + 1, reg := R }
          (d.cxt row (d.col_i + 1)) row ret (calls + 1)
          rfl (parse_buf_nul_free hnf) rfl hi2 hb histr1 homit1 hplain hfe2
      exact ⟨d2, calls2, hrec, hf1, hf2, hf3, hf4, hf5, hf6, hf7, hf8, hf9⟩

/-- One line-level tail of the driver loop (inner loop plus the `result:`
output step) on identical NUL-free buffers at equal cursors, over a row of
plain rules. -/
theorem loopTail_ident {chr : List Char} (hsep : is_separator chr '.' = false)
    (d : Ndiff) (c : Constraint) (oL oR : List (List Char)) (calls : Nat)
    (hl : d.rhs_b = d.lhs_b) (hnf : nulChar ∉ d.lhs_b)
    (hie : d.rhs_i = d.lhs_i) (hi : d.lhs_i ≤ d.lhs_b.length)
    (hb : d.blank = false)
    (histr : c.eps.cmd.istr = false) (homit : c.eps.cmd.omitc = false)
    (hplain : ∀ col, PlainRule (d.cxt d.row_i col)) :
    ∃ d2 oL2 oR2 calls2,
      loopTail chr d c oL oR calls = some (d2, oL2, oR2, calls2) ∧
      d2.cnt_i = d.cnt_i ∧ d2.lhs_f = d.lhs_f ∧ d2.rhs_f = d.rhs_f ∧
      d2.lhs_eof = d.lhs_eof ∧ d2.rhs_eof = d.rhs_eof ∧
      d2.cxt = d.cxt ∧ d2.check = d.check ∧ d2.blank = false ∧
      d2.row_i = d.row_i := by
  have hll : d.rhs_b.length = d.lhs_b.length := by rw [hl]
  obtain ⟨d2, calls2, hcols, hf1, hf2, hf3, hf4, hf5, hf6, hf7, hf8, hf9⟩ :=
    loopCols_ident hsep (d.lhs_b.length + d.rhs_b.length + 2) d c d.row_i {} calls
      hl hnf hie hi hb histr homit hplain (by omega)
  unfold loopTail
  rw [hcols]
  dsimp only []
  rw [show TestRet.isZero ({} : TestRet) = true from rfl]
  rw [if_pos rfl]
  exact ⟨d2, _, _, calls2, rfl, hf1, hf2, hf3, hf4, hf5, hf6, hf7, hf8, hf9⟩

/-- The driver loop exits immediately (keeping its state) once either
stream has hit end-of-file. -/
theorem loopGo_exit {chr : List Char} {d : Ndiff} {oL oR : List (List Char)}
    {calls fuel : Nat} (hfe : ndiff_feof d false = true) (hf : 1 ≤ fuel) :
    loopGo chr fuel d oL oR calls = some (d, oL, oR, calls) := by
  cases fuel with
  | zero => omega
  | succ n => rw [loopGo, if_pos hfe]

/-- The driver loop on identical streams of NUL-free lines under an
all-plain context: it terminates and the diff counter is untouched. -/
theorem loopGo_ident {chr : List Char} (hsep : is_separator chr '.' = false) :
    ∀ (fuel : Nat) (d : Ndiff) (oL oR : List (List Char)) (calls : Nat),
    d.rhs_f = d.lhs_f →
    (∀ line ∈ d.lhs_f, nulChar ∉ line) →
    d.rhs_eof = d.lhs_eof →
    d.blank = false →
    (∀ row col, PlainRule (d.cxt row col)) →
    d.lhs_f.length + 2 ≤ fuel →
    ∃ d2 oL2 oR2 calls2,
      loopGo chr fuel d oL oR calls = some (d2, oL2, oR2, calls2) ∧
      d2.cnt_i = d.cnt_i := by
  intro fuel
  induction fuel with
  | zero =>
    intro d oL oR calls _ _ _ _ _ hf
    omega
  | succ fuel ih =>
    intro d oL oR calls hstr hnul heof hb hplain hf
    by_cases hfe : ndiff_feof d false = true
    · exact ⟨d, oL, oR, calls, loopGo_exit hfe (by omega), rfl⟩
    · rw [loopGo, if_neg hfe]
      obtain ⟨hskip, hgoto, hgonum, -, histr0, homit0, -, -, -, -,
        -, -, -, -, -, -, -, -, -, -, -, -, -, -, -, -, -⟩ :=
        hplain (d.row_i + 1) 0
      dsimp only []
      rw [if_neg (fun hc => hc.2 rfl)]
      rw [if_neg (fun hx => by rw [hskip] at hx; exact Bool.false_ne_true hx)]
      rw [if_neg (fun hx => by rw [hgoto] at hx; exact Bool.false_ne_true hx)]
      rw [if_neg (fun hx => by rw [hgonum] at hx; exact Bool.false_ne_true hx)]
      by_cases hstream : d.lhs_f = []
      · have hemp1 : ndiff_isempty (ndiff_readLine d).1 = true := by
          unfold ndiff_isempty ndiff_readLine ndiff_reset_buf
          dsimp only []
          rw [hstr, hstream]
          simp [chAt]
        have hfe1 : ndiff_feof (ndiff_readLine d).1 false = true := by
          unfold ndiff_feof ndiff_readLine ndiff_reset_buf
          dsimp only []
          rw [hstream]
          simp
        rw [if_pos hemp1]
        exact ⟨_, _, _, _, loopGo_exit hfe1 (by omega), rfl⟩
      · obtain ⟨line, rest, hcons⟩ := List.exists_cons_of_ne_nil hstream
        have hlineNul : nulChar ∉ d.lhs_f.headD [] := by
          rw [hcons]
          exact hnul line (by rw [hcons]; exact List.mem_cons_self _ _)
        have htailNul : ∀ x ∈ d.lhs_f.tail, nulChar ∉ x :=
          fun x hx => hnul x (List.mem_of_mem_tail hx)
        have htails : d.rhs_f.tail = d.lhs_f.tail := by rw [hstr]
        have hheads : d.rhs_f.headD [] = d.lhs_f.headD [] := by rw [hstr]
        have heofs : (d.rhs_eof || d.rhs_f.isEmpty)
            = (d.lhs_eof || d.lhs_f.isEmpty) := by rw [hstr, heof]
        have htlen : d.lhs_f.tail.length + 2 ≤ fuel := by
          rw [hcons]
          rw [hcons] at hf
          simp only [List.length_cons, List.tail_cons] at hf ⊢
          omega
        by_cases hempl : ndiff_isempty (ndiff_readLine d).1 = true
        · rw [if_pos hempl]
          obtain ⟨d2, oL2, oR2, calls2, hrec, hcnt⟩ :=
            ih (ndiff_readLine d).1 (oL ++ [(ndiff_outLine (ndiff_readLine d).1).1])
              (oR ++ [(ndiff_outLine (ndiff_readLine d).1).2]) calls
              htails htailNul heofs hb hplain htlen
          exact ⟨d2, oL2, oR2, calls2, hrec, hcnt⟩
        · rw [if_neg hempl]
          obtain ⟨d2, oL2, oR2, calls2, htail, hg1, hg2, hg3, hg4, hg5, hg6,
            hg7, hg8, hg9⟩ :=
            loopTail_ident hsep (ndiff_readLine d).1 (d.cxt (d.row_i + 1) 0)
              oL oR calls hheads hlineNul rfl (Nat.zero_le _) hb histr0 homit0
              (fun col => hplain (d.row_i + 1) col)
          rw [htail]
          dsimp only []
          obtain ⟨d3, oL3, oR3, calls3, hrec, hcnt⟩ :=
            ih d2 oL2 oR2 calls2
              (by
                rw [hg3, hg2]
                show d.rhs_f.tail = d.lhs_f.tail
                exact htails)
              (by
                rw [hg2]
                show ∀ x ∈ d.lhs_f.tail, nulChar ∉ x
                exact htailNul)
              (by
                rw [hg5, hg4]
                show (d.rhs_eof || d.rhs_f.isEmpty) = (d.lhs_eof || d.lhs_f.isEmpty)
                exact heofs)
              hg8
              (by
                rw [hg6]
                show ∀ row col, PlainRule (d.cxt row col)
                exact hplain)
              (by
                rw [hg2]
                show d.lhs_f.tail.length + 2 ≤ fuel
                exact htlen)
          exact ⟨d3, oL3, oR3, calls3, hrec, by rw [hcnt, hg1]; exact rfl⟩

/-- C6 counterexample: on the digit-free identical line pair `"a"`|`"a"`,
`ndiff_nextNum` returns 0 with no surfaced difference (clean end-of-line
exit), yet both cursors land at 2 = length + 1, one byte PAST the
terminating NUL of the length-1 buffers — not at a position `≤ length` and
not on the NUL, because the shared `quit_str` epilogue (ndiff.c:651) adds
1 to both cursors even on the clean path. -/
theorem C6_cursor_past_nul_cex :
    (ndiff_nextNum [] 4
        (ndiff_fillLine (ndiff_alloc 99 [] [] emptyCxt 0 0) ['a'] ['a']) {}).map
        (fun r => (r.1.lhs_i, r.1.rhs_i, r.2.1, r.2.2)) =
      some (2, 2, 0, ScanExit.eol) ∧
    (ndiff_fillLine (ndiff_alloc 99 [] [] emptyCxt 0 0) ['a'] ['a']).lhs_b.length = 1 ∧
    ¬((2 : Nat) ≤ 1) ∧ (2 : Nat) ≠ 1 := by
  refine ⟨?_, by decide, by decide, by decide⟩
  decide

/-- C6 as amended: after the line-loading operations both cursors are 0,
and after `ndiff_nextNum` from a state with in-bounds cursors over
NUL-free buffers both cursors lie within `0 ≤ cursor ≤ length + 1` (not
`≤ length`); in particular, whenever `nextNum` returns 0 without surfacing
a text difference (the clean end-of-line exit), both cursors sit exactly
ONE BYTE PAST the terminating NUL of their buffers (`cursor = length + 1`),
not on it. -/
theorem C6_cursor_bounds (chr : List Char) (fuel : Nat) (d : Ndiff)
    (c : Constraint)
    (hnl : nulChar ∉ d.lhs_b) (hnr : nulChar ∉ d.rhs_b)
    (hl : d.lhs_i ≤ d.lhs_b.length) (hr : d.rhs_i ≤ d.rhs_b.length)
    (d1 : Ndiff) (col : Nat) (ex : ScanExit)
    (hrun : ndiff_nextNum chr fuel d c = some (d1, col, ex)) :
    (∀ lb rb, (ndiff_fillLine d lb rb).lhs_i = 0 ∧
              (ndiff_fillLine d lb rb).rhs_i = 0 ∧
              (ndiff_readLine d).1.lhs_i = 0 ∧
              (ndiff_readLine d).1.rhs_i = 0) ∧
    d1.lhs_i ≤ d.lhs_b.length + 1 ∧ d1.rhs_i ≤ d.rhs_b.length + 1 ∧
    (ex = ScanExit.eol → d1.lhs_i = d.lhs_b.length + 1 ∧
                         d1.rhs_i = d.rhs_b.length + 1) := by
  refine ⟨fun lb rb => ⟨(fillLine_cursors d lb rb).1, (fillLine_cursors d lb rb).2,
    (readLine_cursors d).1, (readLine_cursors d).2⟩, ?_⟩
  unfold ndiff_nextNum at hrun
  by_cases hie : ndiff_isempty d = true
  · rw [if_pos hie] at hrun
    simp only [ndiff_isempty, Bool.and_eq_true, decide_eq_true_eq] at hie
    have hpl := length_le_of_chAt_nul hnl hie.1
    have hql := length_le_of_chAt_nul hnr hie.2
    cases hrun
    refine ⟨by simp; omega, by simp; omega, fun _ => ⟨by simp; omega, by simp; omega⟩⟩
  · rw [if_neg hie] at hrun
    obtain ⟨⟨b1, b2, _, _⟩, beol, _⟩ :=
      nextNumGo_bounds chr d c hnl hnr fuel d.lhs_i d.rhs_i d1 col ex hl hr hrun
    exact ⟨b1, b2, beol⟩

/-- The loaded state of the C6 scenario (`"a"` against `"a"`). -/
def d6fill : Ndiff := ndiff_fillLine (ndiff_alloc 99 [] [] emptyCxt 0 0) ['a'] ['a']

/-- The state `ndiff_nextNum` leaves on the C6 scenario: both cursors one
past the NUL. -/
def d6res : Ndiff := { d6fill with lhs_i := 2, rhs_i := 2, col_i := 0 }

/-- Witness for C6 on the `"a"`|`"a"` scenario. -/
theorem C6_cursor_bounds_witness :
    (∀ lb rb, (ndiff_fillLine d6fill lb rb).lhs_i = 0 ∧
              (ndiff_fillLine d6fill lb rb).rhs_i = 0 ∧
              (ndiff_readLine d6fill).1.lhs_i = 0 ∧
              (ndiff_readLine d6fill).1.rhs_i = 0) ∧
    d6res.lhs_i ≤ d6fill.lhs_b.length + 1 ∧ d6res.rhs_i ≤ d6fill.rhs_b.length + 1 ∧
    (ScanExit.eol = ScanExit.eol → d6res.lhs_i = d6fill.lhs_b.length + 1 ∧
                                   d6res.rhs_i = d6fill.rhs_b.length + 1) :=
  C6_cursor_bounds [] 4 d6fill {} (by decide) (by decide) (by decide) (by decide)
    d6res 0 ScanExit.eol rfl

/-- Characterization of one side of `ndiff_gotoLine`: either no line of the
stream contains the tag — then all `length + 1` reads are consumed (the
final one hitting EOF) and the buffer ends empty — or the stream splits as
`pre ++ l :: post` with the tag absent from every line of `pre` and present
in `l`, and exactly `pre.length + 1` lines are consumed, `l` staying in the
buffer with the rest of the stream untouched. -/
theorem sideSearch_cases (tag : List Char) (f : List (List Char)) :
    ((∀ l ∈ f, isSubstr tag l = false) ∧
      (sideSearch tag f).delta = f.length + 1 ∧
      (sideSearch tag f).eof = true ∧
      (sideSearch tag f).buf = [] ∧
      (sideSearch tag f).rest = []) ∨
    (∃ pre l post, f = pre ++ l :: post ∧
      (∀ x ∈ pre, isSubstr tag x = false) ∧
      isSubstr tag l = true ∧
      (sideSearch tag f).delta = pre.length + 1 ∧
      (sideSearch tag f).buf = l ∧
      (sideSearch tag f).eof = false ∧
      (sideSearch tag f).rest = post) := by
  induction f with
  | nil =>
    left
    simp [sideSearch]
  | cons a f ih =>
    by_cases h : isSubstr tag a = true
    · right
      exact ⟨[], a, f, by simp, by simp, h, by simp [sideSearch, h],
        by simp [sideSearch, h], by simp [sideSearch, h], by simp [sideSearch, h]⟩
    · rw [Bool.not_eq_true] at h
      rcases ih with ⟨hall, hd, he, hb, hr⟩ | ⟨pre, l, post, hsplit, hpre, hl, hd, hb, he, hr⟩
      · left
        refine ⟨?_, ?_, ?_, ?_, ?_⟩
        · intro x hx
          rcases List.mem_cons.mp hx with hx | hx
          · exact hx ▸ h
          · exact hall x hx
        · simp [sideSearch, h, hd]
        · simp [sideSearch, h, he]
        · simp [sideSearch, h, hb]
        · simp [sideSearch, h, hr]
      · right
        refine ⟨a :: pre, l, post, by simp [hsplit], ?_, hl, ?_, ?_, ?_, ?_⟩
        · intro x hx
          rcases List.mem_cons.mp hx with hx | hx
          · exact hx ▸ h
          · exact hpre x hx
        · simp [sideSearch, h, hd]
        · simp [sideSearch, h, hb]
        · simp [sideSearch, h, he]
        · simp [sideSearch, h, hr]

/-- C8: `ndiff_gotoLine` advances each side independently until a line
containing the tag is found or EOF (the per-side searches depend only on
that side's stream), and advances `row_i` by exactly the minimum of the
two per-side line counts, with no constraint tying the two counts
together. -/
theorem C8_gotoLine_min_advance (d : Ndiff) (c : Constraint) :
    (ndiff_gotoLine d c).1.row_i =
      d.row_i + min (sideSearch c.eps.tag d.lhs_f).delta
                    (sideSearch c.eps.tag d.rhs_f).delta ∧
    (ndiff_gotoLine d c).1.lhs_b = (sideSearch c.eps.tag d.lhs_f).buf ∧
    (ndiff_gotoLine d c).1.rhs_b = (sideSearch c.eps.tag d.rhs_f).buf ∧
    (((∀ l ∈ d.lhs_f, isSubstr c.eps.tag l = false) ∧
        (sideSearch c.eps.tag d.lhs_f).delta = d.lhs_f.length + 1 ∧
        (sideSearch c.eps.tag d.lhs_f).eof = true) ∨
      (∃ pre l post, d.lhs_f = pre ++ l :: post ∧
        (∀ x ∈ pre, isSubstr c.eps.tag x = false) ∧
        isSubstr c.eps.tag l = true ∧
        (sideSearch c.eps.tag d.lhs_f).delta = pre.length + 1 ∧
        (sideSearch c.eps.tag d.lhs_f).buf = l ∧
        (sideSearch c.eps.tag d.lhs_f).eof = false)) ∧
    (((∀ l ∈ d.rhs_f, isSubstr c.eps.tag l = false) ∧
        (sideSearch c.eps.tag d.rhs_f).delta = d.rhs_f.length + 1 ∧
        (sideSearch c.eps.tag d.rhs_f).eof = true) ∨
      (∃ pre l post, d.rhs_f = pre ++ l :: post ∧
        (∀ x ∈ pre, isSubstr c.eps.tag x = false) ∧
        isSubstr c.eps.tag l = true ∧
        (sideSearch c.eps.tag d.rhs_f).delta = pre.length + 1 ∧
        (sideSearch c.eps.tag d.rhs_f).buf = l ∧
        (sideSearch c.eps.tag d.rhs_f).eof = false)) := by
  refine ⟨rfl, rfl, rfl, ?_, ?_⟩
  · rcases sideSearch_cases c.eps.tag d.lhs_f with ⟨h1, h2, h3, _, _⟩ |
      ⟨pre, l, post, h1, h2, h3, h4, h5, h6, _⟩
    · exact Or.inl ⟨h1, h2, h3⟩
    · exact Or.inr ⟨pre, l, post, h1, h2, h3, h4, h5, h6⟩
  · rcases sideSearch_cases c.eps.tag d.rhs_f with ⟨h1, h2, h3, _, _⟩ |
      ⟨pre, l, post, h1, h2, h3, h4, h5, h6, _⟩
    · exact Or.inl ⟨h1, h2, h3⟩
    · exact Or.inr ⟨pre, l, post, h1, h2, h3, h4, h5, h6⟩

/-- C7 counterexample: on `"a 1 b"` vs `"a 2 b"` under the rule
`{abs ≤ 1/2}` the difference IS reported (`cnt_i` becomes 1), but because
`ret ≠ 0` and the rule does not set `save`, `ndiff_testNum` does not write
the registers at all (ndiff.c:797): after the call registers 1, 2, 5, 6
still hold 0, not the claimed `R1=1, R2=2, R5=1, R6=1/2`. -/
theorem C7_registers_not_written_cex :
    ndiff_nextNum [] 16 d7pre c7rule = some (d7at, 1, ScanExit.found) ∧
    ((ndiff_testNum d7at c7rule).1.reg 1, (ndiff_testNum d7at c7rule).1.reg 2,
     (ndiff_testNum d7at c7rule).1.reg 5, (ndiff_testNum d7at c7rule).1.reg 6) =
      (0, 0, 0, 0) ∧
    (ndiff_testNum d7at c7rule).1.cnt_i = 1 ∧
    ¬((0 : ℚ) = 1 ∧ (0 : ℚ) = 2 ∧ (0 : ℚ) = 1 ∧ (0 : ℚ) = 1/2) := by
  have hp1 : parse_number ['a', ' ', '1', ' ', 'b'] 2 =
      ⟨1, -1, 1, -1, false, ['a', ' ', '1', ' ', 'b']⟩ := by decide
  have hp2 : parse_number ['a', ' ', '2', ' ', 'b'] 2 =
      ⟨1, -1, 1, -1, false, ['a', ' ', '2', ' ', 'b']⟩ := by decide
  have hs1 : (strtod ['a', ' ', '1', ' ', 'b'] 2).1 = 1 := by
    simp +decide [strtod, strtodList, decValAux, chAt, isDigitC]
  have hs2 : (strtod ['a', ' ', '2', ' ', 'b'] 2).1 = 2 := by
    simp +decide [strtod, strtodList, decValAux, chAt, isDigitC]
  refine ⟨rfl, ?_, ?_, by norm_num⟩ <;>
  · rw [testNum_axis_eval _ _ rfl rfl rfl rfl rfl rfl rfl rfl rfl rfl rfl rfl
        rfl rfl rfl (by decide) (by decide)]
    norm_num [show d7at.lhs_b = ['a', ' ', '1', ' ', 'b'] from rfl,
      show d7at.rhs_b = ['a', ' ', '2', ' ', 'b'] from rfl,
      show d7at.lhs_i = 2 from rfl, show d7at.rhs_i = 2 from rfl,
      show d7at.cnt_i = 0 from rfl,
      show d7at.reg = (fun _ => 0) from rfl,
      hp1, hp2, hs1, hs2, testNumQuit, testNumDiffHit, TestRet.isZero,
      reg_setval, pow10m, c7rule]

/-- C7 as amended: on `"a 1 b"` vs `"a 2 b"` under `{abs ≤ 1/2}` (lower
bound −1/2), `ndiff_nextNum` lands on column 1 with both cursors at
char-column 2, and `ndiff_testNum` computes `abs_err = −1` (not `+1`),
which violates the LOWER bound (−1 < −1/2), reports the difference
(`cnt_i = 1`, `ret = {abs}`), advances both cursors past the literals, and
— because `ret ≠ 0` and `save` is unset — leaves every register at 0. -/
theorem C7_abs_reported_eval :
    ndiff_nextNum [] 16 d7pre c7rule = some (d7at, 1, ScanExit.found) ∧
    (ndiff_testNum d7at c7rule).2.abs_d = -1 ∧
    ((-1 : ℚ) < -(1/2)) ∧
    (ndiff_testNum d7at c7rule).2.ret = { abs := true } ∧
    (ndiff_testNum d7at c7rule).1.cnt_i = 1 ∧
    (ndiff_testNum d7at c7rule).1.reg = (fun _ => 0) ∧
    (ndiff_testNum d7at c7rule).1.lhs_i = 3 ∧
    (ndiff_testNum d7at c7rule).1.rhs_i = 3 := by
  have hp1 : parse_number ['a', ' ', '1', ' ', 'b'] 2 =
      ⟨1, -1, 1, -1, false, ['a', ' ', '1', ' ', 'b']⟩ := by decide
  have hp2 : parse_number ['a', ' ', '2', ' ', 'b'] 2 =
      ⟨1, -1, 1, -1, false, ['a', ' ', '2', ' ', 'b']⟩ := by decide
  have hs1 : (strtod ['a', ' ', '1', ' ', 'b'] 2).1 = 1 := by
    simp +decide [strtod, strtodList, decValAux, chAt, isDigitC]
  have hs2 : (strtod ['a', ' ', '2', ' ', 'b'] 2).1 = 2 := by
    simp +decide [strtod, strtodList, decValAux, chAt, isDigitC]
  refine ⟨rfl, ?_, by norm_num, ?_, ?_, ?_, ?_, ?_⟩ <;>
  · rw [testNum_axis_eval _ _ rfl rfl rfl rfl rfl rfl rfl rfl rfl rfl rfl rfl
        rfl rfl rfl (by decide) (by decide)]
    norm_num [show d7at.lhs_b = ['a', ' ', '1', ' ', 'b'] from rfl,
      show d7at.rhs_b = ['a', ' ', '2', ' ', 'b'] from rfl,
      show d7at.lhs_i = 2 from rfl, show d7at.rhs_i = 2 from rfl,
      show d7at.cnt_i = 0 from rfl,
      show d7at.reg = (fun _ => 0) from rfl,
      hp1, hp2, hs1, hs2, testNumQuit, testNumDiffHit, TestRet.isZero,
      reg_setval, pow10m, c7rule]

/-- C3 (as amended): for identical input files — the same list of NUL-free
lines on both sides — under a context of plain rules and a separator
configuration in which `'.'` is not a separator, the driver loop
terminates and reports no difference: the final `cnt_i` is 0.  The
claim's other half — that `ndiff_testNum` is never called — is false: the
loop still calls it for every number pair found (see the
counterexample). -/
theorem C3_identical_plain_clean (chr : List Char) (regMax : Nat)
    (lines : List (List Char)) (ctx : Nat → Nat → Constraint) (n r : Nat)
    (hplain : ∀ row col, PlainRule (ctx row col))
    (hnul : ∀ line ∈ lines, nulChar ∉ line)
    (hsep : is_separator chr '.' = false) :
    ∃ res, ndiff_loop chr (lines.length + 2)
        (ndiff_alloc regMax lines lines ctx n r) = some res ∧
      res.1.cnt_i = 0 := by
  obtain ⟨d2, oL2, oR2, calls2, hrun, hcnt⟩ :=
    loopGo_ident hsep (lines.length + 2) (ndiff_alloc regMax lines lines ctx n r)
      [] [] 0 rfl hnul rfl rfl hplain (le_refl _)
  exact ⟨(d2, oL2, oR2, calls2), hrun, by rw [hcnt]; exact rfl⟩

theorem C3_identical_plain_clean_witness :
    ∃ res, ndiff_loop ['.'] 3 (ndiff_alloc 99 [['1']] [['1']] emptyCxt 0 0)
        = some res ∧ res.1.cnt_i = 0 :=
  C3_identical_plain_clean ['.'] 99 [['1']] emptyCxt 0 0
    (fun _ _ => ⟨rfl, rfl, rfl, rfl, rfl, rfl, rfl, rfl, rfl, rfl,
      rfl, rfl, rfl, rfl, rfl, rfl, rfl, rfl, rfl, rfl,
      rfl, le_refl 0, le_refl 0, le_refl 0, le_refl 0, le_refl 0, le_refl 0⟩)
    (by decide)
    (by decide)

/-- C3 counterexample: the driver loop on the byte-identical file pair
`["1"]` | `["1"]` (default rules, `'.'` not a separator) terminates with
`cnt_i = 0` but calls `ndiff_testNum` exactly once — "testNum is never
called during the run" is false even for byte-identical files, because
every number pair found by the scanner is still checked (the loop has no
byte-equality short-cut around the lexer). -/
theorem C3_testNum_called_cex :
    (ndiff_loop ['.'] 3 (ndiff_alloc 99 [['1']] [['1']] emptyCxt 0 0)).map
        (fun res => (res.2.2.2, res.1.cnt_i)) = some (1, 0) ∧ (1 : Nat) ≠ 0 :=
  ⟨by decide, by decide⟩
